import Mathlib

/-!
Shallow embedding of the Taskflow Obsidian plugin (src/main.ts).

The source file holds two plugin variants:
  * an extended variant (root-folder scoping, task counter, icebox/backlog),
    embedded in namespace `Taskflow.Ext`;
  * a basic variant (no scoping, inline target-folder check), embedded in
    namespace `Taskflow.Basic`.

Host effects (folder creation, rename, frontmatter patching, logging) are
recorded in an effect trace; host failures (a storage call throwing) are
injected through a `HostFaults` record so that the try/catch/finally shape of
`processFile` can be reasoned about for every outcome of the host calls.
The current wall-clock timestamp string produced by `formatInTimeZone` is an
opaque parameter `nowISO`.
-/

namespace Taskflow

/-- A scalar frontmatter value as the metadata cache delivers it:
boolean, string, number, or null. -/
inductive FMValue where
  | bool (b : Bool)
  | str (s : String)
  | num (n : Int)
  | null
deriving DecidableEq

/-- A parsed frontmatter mapping (JS object: unique string keys). -/
abbrev Frontmatter := List (String × FMValue)

/-- `frontmatter[key]` — lookup of a key in a frontmatter object. -/
def fmLookup : Frontmatter → String → Option FMValue
  | [], _ => none
  | (k, v) :: rest, key => if k = key then some v else fmLookup rest key

/-- `frontmatter[key] = v` — set (or overwrite) a key. -/
def fmSet : Frontmatter → String → FMValue → Frontmatter
  | [], key, v => [(key, v)]
  | (k, w) :: rest, key, v =>
      if k = key then (k, v) :: rest else (k, w) :: fmSet rest key v

/-- `delete frontmatter[key]` — remove a key if present. -/
def fmDelete : Frontmatter → String → Frontmatter
  | [], _ => []
  | (k, w) :: rest, key =>
      if k = key then fmDelete rest key else (k, w) :: fmDelete rest key

/-- JS falsiness of `frontmatter[key]` (used by `!frontmatter[k]` in the
timestamp branch): absent, `null`, `false`, `0` and the empty string are
falsy; everything else is truthy. -/
def isFalsyOpt : Option FMValue → Bool
  | none => true
  | some (.bool b) => !b
  | some (.str s) => s.isEmpty
  | some (.num n) => n == 0
  | some .null => true

/-- A vault entry is either a file (`TFile`) or a folder (`TFolder`). -/
inductive Entity where
  | file
  | folder
deriving DecidableEq

/-- The vault: a list of (path, entity-kind) entries, standing for
`app.vault`'s abstract-file table. -/
structure Vault where
  entries : List (String × Entity)
deriving DecidableEq

/-- `vault.getAbstractFileByPath(p)`. -/
def Vault.get (v : Vault) (p : String) : Option Entity :=
  (v.entries.find? (fun pe => pe.1 == p)).map (fun pe => pe.2)

/-- `vault.createFolder(p)` (successful case). -/
def Vault.createFolder (v : Vault) (p : String) : Vault :=
  ⟨v.entries ++ [(p, Entity.folder)]⟩

/-- `vault.rename(file, newPath)` (successful case): the entry at the old
path now lives at the new path. -/
def Vault.rename (v : Vault) (oldPath newPath : String) : Vault :=
  ⟨v.entries.map (fun pe => if pe.1 == oldPath then (newPath, pe.2) else pe)⟩

/-- The slice of a `TFile` object that `processFile` reads: its path, its
name, its parent folder's path (`file.parent?.path`, `none` when the parent
is null), and its parsed frontmatter as served by the metadata cache
(`none` models both a missing file cache and a cache without frontmatter,
which the code treats identically). -/
structure TFile where
  path : String
  name : String
  parentPath : Option String
  frontmatter : Option Frontmatter
deriving DecidableEq

/-- Observable host effects issued by the plugin code. -/
inductive Effect where
  | logWarn (msg : String)
  | log (msg : String)
  | logError (msg : String)
  | createFolder (path : String)
  | rename (oldPath newPath : String)
  | fmSetKey (path key value : String)
  | fmDeleteKey (path key : String)
deriving DecidableEq

/-- Is this effect a relocation (a `vault.rename` call)? -/
def Effect.isRename : Effect → Bool
  | .rename _ _ => true
  | _ => false

/-- Is this effect a frontmatter patch (a write inside
`fileManager.processFrontMatter`)? -/
def Effect.isFmPatch : Effect → Bool
  | .fmSetKey _ _ _ => true
  | .fmDeleteKey _ _ => true
  | _ => false

/-- No relocation and no metadata patch anywhere in the trace. -/
def noMoveOrPatch (effs : List Effect) : Bool :=
  effs.all (fun e => !e.isRename && !e.isFmPatch)

/-- Which host storage calls throw during this invocation. -/
structure HostFaults where
  createFolderFails : Bool
  renameFails : Bool
  patchFails : Bool
deriving DecidableEq

/-- All host calls succeed. -/
def noFaults : HostFaults := ⟨false, false, false⟩

/-- Outcome of the `try` block of `processFile`: the file and vault as the
last successful step left them, the effect trace, and the thrown error
message, if any. -/
structure BodyResult where
  file : TFile
  vault : Vault
  effects : List Effect
  err : Option String
deriving DecidableEq

/-- Outcome of a whole `processFile` call: the guard set afterwards, the
file and vault afterwards, the effect trace, and the plugin settings field
afterwards. -/
structure ProcResult (σ : Type) where
  processing : List String
  file : TFile
  vault : Vault
  effects : List Effect
  settings : σ
deriving DecidableEq

/-- JS `s.startsWith(p)`, computed on the character list. -/
def strStartsWith (s p : String) : Bool :=
  p.toList.isPrefixOf s.toList

/-- JS `path.split('/')`, computed on the character list: splits at every
separator, keeping empty segments. -/
def splitSlashChars : List Char → List String
  | [] => [""]
  | c :: rest =>
    if c = '/' then "" :: splitSlashChars rest
    else
      match splitSlashChars rest with
      | [] => [String.mk [c]]
      | seg :: segs => String.mk (c :: seg.toList) :: segs

/-- JS `path.split('/')`. -/
def splitSlash (s : String) : List String :=
  splitSlashChars s.toList

/-- `buildPath(root, sub)`: empty sub yields the root; empty root treats
sub as absolute; otherwise joined with one separator. -/
def buildPath (root sub : String) : String :=
  if root.isEmpty then sub
  else if sub.isEmpty then root
  else root ++ "/" ++ sub

end Taskflow

namespace Taskflow.Ext

/-- Settings of the extended plugin variant. -/
structure TaskflowPluginSettings where
  rootFolder : String
  templatePath : String
  propertyName : String
  trueFolder : String
  falseFolder : String
  iceboxFolder : String
  enableBacklog : Bool
  backlogFolder : String
  enableCompletedDate : Bool
  completedDatePropertyName : String
  taskCounter : Nat
deriving DecidableEq

/-- The per-segment loop of `ensureFolder`: walk the split parts, extend
the current prefix, and create any prefix missing from the vault.
`vault.createFolder` may throw (injected fault); a throw carries the partial
state out of the loop. -/
def ensureFolderGo (faults : HostFaults) (v : Vault) (effs : List Effect)
    (current : String) :
    List String → Except (Vault × List Effect × String) (Vault × List Effect)
  | [] => .ok (v, effs)
  | part :: rest =>
    let current1 := if current.isEmpty then part else current ++ "/" ++ part
    match v.get current1 with
    | some _ => ensureFolderGo faults v effs current1 rest
    | none =>
      if faults.createFolderFails then
        .error (v, effs, "createFolder failed")
      else
        ensureFolderGo faults (v.createFolder current1)
          (effs ++ [Effect.createFolder current1]) current1 rest

/-- `ensureFolder(folderPath)` of the extended variant: returns immediately
on an empty path, otherwise creates every missing prefix of the path,
ancestor-first. -/
def ensureFolder (faults : HostFaults) (v : Vault) (folderPath : String) :
    Except (Vault × List Effect × String) (Vault × List Effect) :=
  if folderPath.isEmpty then .ok (v, [])
  else ensureFolderGo faults v [] "" (splitSlash folderPath)

/-- The timestamp side-effect (step 2 after the move), shared verbatim by
both variants: when `enableCompletedDate` and a non-empty
`completedDatePropertyName`, on `propertyValue === true` set the key iff it
is currently falsy, on `=== false` delete it. `fm` is the frontmatter the
patch callback receives; `pv` is the classification value. -/
def stampStep (enableCompletedDate : Bool) (completedDatePropertyName : String)
    (faults : HostFaults) (nowISO : String) (file1 : TFile) (v2 : Vault)
    (effs1 : List Effect) (fm : Frontmatter) (pv : Bool) (newPath : String) :
    BodyResult :=
  if enableCompletedDate && !completedDatePropertyName.isEmpty then
    if pv then
      if faults.patchFails then ⟨file1, v2, effs1, some "patch failed"⟩
      else if isFalsyOpt (fmLookup fm completedDatePropertyName) then
        ⟨{ file1 with
            frontmatter :=
              some (fmSet fm completedDatePropertyName (FMValue.str nowISO)) },
          v2, effs1 ++ [Effect.fmSetKey newPath completedDatePropertyName nowISO],
          none⟩
      else ⟨{ file1 with frontmatter := some fm }, v2, effs1, none⟩
    else
      if faults.patchFails then ⟨file1, v2, effs1, some "patch failed"⟩
      else
        ⟨{ file1 with frontmatter := some (fmDelete fm completedDatePropertyName) },
          v2, effs1 ++ [Effect.fmDeleteKey newPath completedDatePropertyName],
          none⟩
  else ⟨file1, v2, effs1, none⟩

/-- The tail of the extended `processFile` body once a strict boolean has
classified the document to `targetFolder`: idempotence check on the current
parent folder, `ensureFolder`, rename, timestamp side-effect. `pv` is the
classification value. -/
def moveStep (s : TaskflowPluginSettings) (faults : HostFaults)
    (nowISO : String) (v : Vault) (file : TFile) (fm : Frontmatter)
    (pv : Bool) (targetFolder : String) : BodyResult :=
  let currentFolderPath := file.parentPath.getD ""
  if currentFolderPath = targetFolder then ⟨file, v, [], none⟩
  else
    let newPath := targetFolder ++ "/" ++ file.name
    match ensureFolder faults v targetFolder with
    | .error (v1, effs, msg) => ⟨file, v1, effs, some msg⟩
    | .ok (v1, effs) =>
      if faults.renameFails then ⟨file, v1, effs, some "rename failed"⟩
      else
        let originalPath := file.path
        let file1 :=
          { file with path := newPath, parentPath := some targetFolder }
        let v2 := v1.rename originalPath newPath
        let effs1 := effs ++ [Effect.rename originalPath newPath,
          Effect.log ("Taskflow Plugin: Moved \"" ++ originalPath
            ++ "\" to \"" ++ newPath ++ "\"")]
        stampStep s.enableCompletedDate s.completedDatePropertyName
          faults nowISO file1 v2 effs1 fm pv newPath

/-- The `try` block of the extended `processFile` (src/main.ts lines
228–288): scope check, settings completeness on the root-resolved folders,
metadata read, strict-boolean classification, then `moveStep`. -/
def processBody (s : TaskflowPluginSettings) (faults : HostFaults)
    (nowISO : String) (v : Vault) (file : TFile) : BodyResult :=
  if !s.rootFolder.isEmpty && !strStartsWith file.path (s.rootFolder ++ "/") then
    ⟨file, v, [], none⟩
  else
    let absoluteTrueFolder := buildPath s.rootFolder s.trueFolder
    let absoluteFalseFolder := buildPath s.rootFolder s.falseFolder
    if s.propertyName.isEmpty || absoluteTrueFolder.isEmpty
        || absoluteFalseFolder.isEmpty then
      ⟨file, v, [Effect.logWarn "Taskflow Plugin: Settings are incomplete."], none⟩
    else
      match file.frontmatter with
      | none => ⟨file, v, [], none⟩
      | some fm =>
        let propertyValue := fmLookup fm s.propertyName
        if propertyValue = some (FMValue.bool true) then
          moveStep s faults nowISO v file fm true absoluteTrueFolder
        else if propertyValue = some (FMValue.bool false) then
          moveStep s faults nowISO v file fm false absoluteFalseFolder
        else ⟨file, v, [], none⟩

/-- The extended `processFile` (src/main.ts lines 220–295): reentrancy
guard around the body, with the catch-all logging a thrown error against
the original path and the `finally` releasing the guard. -/
def processFile (s : TaskflowPluginSettings) (faults : HostFaults)
    (nowISO : String) (proc : List String) (v : Vault) (file : TFile) :
    ProcResult TaskflowPluginSettings :=
  let originalPath := file.path
  if proc.contains originalPath then
    ⟨proc, file, v, [], s⟩
  else
    let proc1 := originalPath :: proc
    let r := processBody s faults nowISO v file
    match r.err with
    | none => ⟨proc1.erase originalPath, r.file, r.vault, r.effects, s⟩
    | some _ =>
      ⟨proc1.erase originalPath, r.file, r.vault,
        r.effects ++ [Effect.logError ("Taskflow Plugin: Error processing \""
          ++ originalPath ++ "\":")], s⟩

/-- The filename test `/^\[TASK-(\d+)\]/` with `parseInt(match[1], 10)`:
the name must start with `[TASK-`, then one or more digits, then `]`;
returns the decimal value of the digit run. -/
def parseTaskNum (nm : String) : Option Nat :=
  if strStartsWith nm "[TASK-" then
    let rest := nm.toList.drop 6
    let ds := rest.takeWhile (fun c => c.isDigit)
    if ds.isEmpty then none
    else
      match rest.drop ds.length with
      | c :: _ =>
        if c = ']' then
          some (ds.foldl (fun n c => n * 10 + (c.toNat - 48)) 0)
        else none
      | [] => none
  else none

/-- The in-scope filter of `detectTaskCounter`: with a non-empty root
folder only files under `root/` count; otherwise every file counts. -/
def inScope (rootFolder : String) (f : TFile) : Bool :=
  rootFolder.isEmpty || strStartsWith f.path (rootFolder ++ "/")

/-- `detectTaskCounter` (src/main.ts lines 121–137): scan the markdown
files for the highest existing `[TASK-NNN]` number among in-scope files and
set `taskCounter` to one above it (1 when none). -/
def detectTaskCounter (s : TaskflowPluginSettings) (files : List TFile) :
    TaskflowPluginSettings :=
  let maxNum := files.foldl
    (fun maxNum f =>
      if !(inScope s.rootFolder f) then maxNum
      else
        match parseTaskNum f.name with
        | some num => if num > maxNum then num else maxNum
        | none => maxNum) 0
  { s with taskCounter := maxNum + 1 }

end Taskflow.Ext

namespace Taskflow.Basic

/-- Settings of the basic plugin variant. -/
structure TaskflowPluginSettings where
  propertyName : String
  trueFolder : String
  falseFolder : String
  enableCompletedDate : Bool
  completedDatePropertyName : String
deriving DecidableEq

/-- The rename-and-stamp tail of the basic `processFile` body, reached once
the target folder is known to exist as a folder (`v1` is the vault after a
possible `createFolder`, `effs` records it): rename, then the timestamp
side-effect. -/
def renameAndStamp (s : TaskflowPluginSettings) (faults : HostFaults)
    (nowISO : String) (file : TFile) (fm : Frontmatter) (pv : Bool)
    (targetFolder newPath : String) (v1 : Vault) (effs : List Effect) :
    BodyResult :=
  if faults.renameFails then ⟨file, v1, effs, some "rename failed"⟩
  else
    let originalPath := file.path
    let file1 :=
      { file with path := newPath, parentPath := some targetFolder }
    let v2 := v1.rename originalPath newPath
    let effs1 := effs ++ [Effect.rename originalPath newPath,
      Effect.log ("Taskflow Plugin: Moved \"" ++ originalPath
        ++ "\" to \"" ++ newPath ++ "\"")]
    Ext.stampStep s.enableCompletedDate s.completedDatePropertyName
      faults nowISO file1 v2 effs1 fm pv newPath

/-- The tail of the basic `processFile` body once a strict boolean has
classified the document to `targetFolder`: idempotence check, inline
target-folder existence/kind check (create when absent; log an error and
return when the target path is a file), then `renameAndStamp`. -/
def moveStep (s : TaskflowPluginSettings) (faults : HostFaults)
    (nowISO : String) (v : Vault) (file : TFile) (fm : Frontmatter)
    (pv : Bool) (targetFolder : String) : BodyResult :=
  let currentFolderPath := file.parentPath.getD ""
  if currentFolderPath = targetFolder then ⟨file, v, [], none⟩
  else
    let newPath := targetFolder ++ "/" ++ file.name
    match v.get targetFolder with
    | none =>
      if faults.createFolderFails then
        ⟨file, v, [], some "createFolder failed"⟩
      else
        renameAndStamp s faults nowISO file fm pv targetFolder newPath
          (v.createFolder targetFolder) [Effect.createFolder targetFolder]
    | some Entity.file =>
      ⟨file, v, [Effect.logError ("Taskflow Plugin: Target path \""
        ++ targetFolder ++ "\" is a file, not a folder.")], none⟩
    | some Entity.folder =>
      renameAndStamp s faults nowISO file fm pv targetFolder newPath v []

/-- The `try` block of the basic `processFile` (src/main.ts lines 588–646):
settings completeness on the raw folder fields, metadata read,
strict-boolean classification, then `moveStep`. -/
def processBody (s : TaskflowPluginSettings) (faults : HostFaults)
    (nowISO : String) (v : Vault) (file : TFile) : BodyResult :=
  if s.propertyName.isEmpty || s.trueFolder.isEmpty || s.falseFolder.isEmpty then
    ⟨file, v, [Effect.logWarn "Taskflow Plugin: Settings are incomplete."], none⟩
  else
    match file.frontmatter with
    | none => ⟨file, v, [], none⟩
    | some fm =>
      let propertyValue := fmLookup fm s.propertyName
      if propertyValue = some (FMValue.bool true) then
        moveStep s faults nowISO v file fm true s.trueFolder
      else if propertyValue = some (FMValue.bool false) then
        moveStep s faults nowISO v file fm false s.falseFolder
      else ⟨file, v, [], none⟩

/-- The basic `processFile` (src/main.ts lines 580–653): reentrancy guard
around the body, catch-all logging against the original path, `finally`
releasing the guard. -/
def processFile (s : TaskflowPluginSettings) (faults : HostFaults)
    (nowISO : String) (proc : List String) (v : Vault) (file : TFile) :
    ProcResult TaskflowPluginSettings :=
  let originalPath := file.path
  if proc.contains originalPath then
    ⟨proc, file, v, [], s⟩
  else
    let proc1 := originalPath :: proc
    let r := processBody s faults nowISO v file
    match r.err with
    | none => ⟨proc1.erase originalPath, r.file, r.vault, r.effects, s⟩
    | some _ =>
      ⟨proc1.erase originalPath, r.file, r.vault,
        r.effects ++ [Effect.logError ("Taskflow Plugin: Error processing \""
          ++ originalPath ++ "\":")], s⟩

end Taskflow.Basic

namespace Taskflow

/-! ### Sample inputs used by witnesses and counterexamples -/

/-- A sample extended-variant configuration: root `tf`, property `p`,
true folder `done`, false folder `inbox`, completed-date stamping on. -/
def sampleExtS : Ext.TaskflowPluginSettings :=
  ⟨"tf", "", "p", "done", "inbox", "icebox", false, "backlog", true, "cd", 1⟩

/-- A sample basic-variant configuration. -/
def sampleBasicS : Basic.TaskflowPluginSettings :=
  ⟨"p", "02 - Completed", "01 - Inbox", true, "cd"⟩

/-- A sample vault containing the folders the sample settings point at. -/
def sampleVault : Vault :=
  ⟨[("tf", Entity.folder), ("tf/done", Entity.folder),
    ("tf/inbox", Entity.folder), ("02 - Completed", Entity.folder),
    ("01 - Inbox", Entity.folder)]⟩

/-- A sample completed task file under the root, in `tf/inbox`. -/
def sampleFileTrue : TFile :=
  ⟨"tf/inbox/x.md", "x.md", some "tf/inbox", some [("p", FMValue.bool true)]⟩

/-- A sample completed file for the basic variant, sitting in its inbox. -/
def sampleBasicFile : TFile :=
  ⟨"01 - Inbox/y.md", "y.md", some "01 - Inbox",
    some [("p", FMValue.bool true)]⟩

/-- A host where `vault.rename` throws. -/
def renameFault : HostFaults := ⟨false, true, false⟩

/-- An extended configuration whose `falseFolder` field is the empty
string while the root folder is non-empty (the settings form documents
this: "Leave blank to use Root Folder"). -/
def emptyFalseExtS : Ext.TaskflowPluginSettings :=
  ⟨"tf", "", "p", "done", "", "icebox", false, "backlog", false, "cd", 1⟩

/-- A vault holding the root folder and one subfolder. -/
def c4Vault : Vault :=
  ⟨[("tf", Entity.folder), ("tf/sub", Entity.folder)]⟩

/-- A document inside `tf/sub` whose property is the strict boolean
`false`. -/
def c4File : TFile :=
  ⟨"tf/sub/x.md", "x.md", some "tf/sub", some [("p", FMValue.bool false)]⟩

/-- The effect trace carried by either outcome of a folder-ensuring step. -/
def exceptEffects :
    Except (Vault × List Effect × String) (Vault × List Effect) →
      List Effect
  | .ok (_, effs) => effs
  | .error (_, effs, _) => effs

/-- The vault carried by either outcome of a folder-ensuring step. -/
def exceptVault :
    Except (Vault × List Effect × String) (Vault × List Effect) → Vault
  | .ok (v, _) => v
  | .error (v, _, _) => v

/-- Every effect in the trace is a folder creation. -/
def onlyCreates (l : List Effect) : Prop :=
  ∀ e ∈ l, ∃ p, e = Effect.createFolder p

end Taskflow

namespace Taskflow.Ext

/-- The resolved container a classification value `b` sends a document to
in the extended variant: the root-joined true folder for `true`, the
root-joined false folder for `false`. -/
def targetOf (s : TaskflowPluginSettings) (b : Bool) : String :=
  if b then buildPath s.rootFolder s.trueFolder
  else buildPath s.rootFolder s.falseFolder

end Taskflow.Ext

namespace Taskflow.Basic

/-- The container a classification value `b` sends a document to in the
basic variant: the raw true folder for `true`, the raw false folder for
`false`. -/
def targetOf (s : TaskflowPluginSettings) (b : Bool) : String :=
  if b then s.trueFolder else s.falseFolder

end Taskflow.Basic

namespace Taskflow.Ext

/-- The successive prefixes `ensureFolder` walks: each split segment
appended to the previous prefix. -/
def prefixesFrom (current : String) : List String → List String
  | [] => []
  | part :: rest =>
    let c := if current.isEmpty then part else current ++ "/" ++ part
    c :: prefixesFrom c rest

/-- All ancestor prefixes of a folder path, shortest first. -/
def folderPrefixes (folderPath : String) : List String :=
  prefixesFrom "" (splitSlash folderPath)

end Taskflow.Ext

namespace Taskflow

/-- An extended configuration with an empty root, classifying into `done`
and `inbox`, no completed-date stamping. -/
def c3ExtS : Ext.TaskflowPluginSettings :=
  ⟨"", "", "p", "done", "inbox", "icebox", false, "backlog", false, "cd", 1⟩

/-- A vault in which the path `done` exists as a *file*. -/
def c3Vault : Vault := ⟨[("done", Entity.file)]⟩

/-- A root-level document whose property is the strict boolean `true`. -/
def c3File : TFile :=
  ⟨"x.md", "x.md", some "", some [("p", FMValue.bool true)]⟩

/-- An extended configuration with completed-date stamping enabled under
the key `cd`, empty root, classifying into `done`/`inbox`. -/
def c6S : Ext.TaskflowPluginSettings :=
  ⟨"", "", "p", "done", "inbox", "icebox", false, "backlog", true, "cd", 1⟩

/-- A vault in which the target folder `done` exists. -/
def c6Vault : Vault := ⟨[("done", Entity.folder)]⟩

/-- A completed document whose `cd` key currently holds the boolean
`false` — present, not absent, and not an empty string. -/
def c6File : TFile :=
  ⟨"x.md", "x.md", some "",
    some [("p", FMValue.bool true), ("cd", FMValue.bool false)]⟩

/-- Lookup through the optional frontmatter of a possibly cache-less
file. -/
def fmLookupO : Option Frontmatter → String → Option FMValue
  | none, _ => none
  | some fm, k => fmLookup fm k

end Taskflow

namespace Taskflow.Ext

/-! ### General lemmas about the extended variant -/

/-- `processFile` restores the guard set on every exit path: reentrant
no-op, normal return, or caught error. -/
theorem processFile_processing (s : TaskflowPluginSettings)
    (faults : HostFaults) (nowISO : String) (proc : List String) (v : Vault)
    (file : TFile) :
    (processFile s faults nowISO proc v file).processing = proc := by
  simp only [processFile]
  split
  · rfl
  · split <;> simp [List.erase_cons_head]

/-- `processFile` never writes the settings object. -/
theorem processFile_settings (s : TaskflowPluginSettings)
    (faults : HostFaults) (nowISO : String) (proc : List String) (v : Vault)
    (file : TFile) :
    (processFile s faults nowISO proc v file).settings = s := by
  simp only [processFile]
  split
  · rfl
  · split <;> rfl

end Taskflow.Ext

namespace Taskflow.Basic

/-! ### General lemmas about the basic variant -/

/-- `processFile` restores the guard set on every exit path. -/
theorem processFile_processing_basic (s : TaskflowPluginSettings)
    (faults : HostFaults) (nowISO : String) (proc : List String) (v : Vault)
    (file : TFile) :
    (processFile s faults nowISO proc v file).processing = proc := by
  simp only [processFile]
  split
  · rfl
  · split <;> simp [List.erase_cons_head]

end Taskflow.Basic

namespace Taskflow

/-! ### Claim theorems -/

/-- C1. A `processFile` invocation on a document whose path is already
in the in-flight guard set returns immediately with no storage or metadata
mutation (file, vault, guard set unchanged, empty effect trace); otherwise
the path is added and removed again on every exit path — success, early
return, or thrown host error (any `HostFaults`) — so the guard set after
the call equals the guard set before it. -/
theorem taskflow_C1_reentrancy_guard (s : Ext.TaskflowPluginSettings)
    (faults : HostFaults) (nowISO : String) (proc : List String) (v : Vault)
    (file : TFile) :
    (proc.contains file.path = true →
      Ext.processFile s faults nowISO proc v file = ⟨proc, file, v, [], s⟩) ∧
    (Ext.processFile s faults nowISO proc v file).processing = proc := by
  refine ⟨fun h => ?_, Ext.processFile_processing s faults nowISO proc v file⟩
  simp only [Ext.processFile, h, if_true]

/-- Witness for C1 at a concrete reentrant call. -/
theorem taskflow_C1_witness :
    Ext.processFile sampleExtS noFaults "now" ["tf/inbox/x.md"]
      sampleVault sampleFileTrue =
      ⟨["tf/inbox/x.md"], sampleFileTrue, sampleVault, [], sampleExtS⟩ :=
  (taskflow_C1_reentrancy_guard sampleExtS noFaults "now" ["tf/inbox/x.md"]
    sampleVault sampleFileTrue).1 (by decide)

/-- C8. Extended variant: when a non-empty root scope is configured and
the document's path does not begin with that scope followed by `/`,
`processFile` is a complete no-op — file, vault and guard set unchanged and
no effects — regardless of the document's property value. -/
theorem taskflow_C8_root_scope (s : Ext.TaskflowPluginSettings)
    (faults : HostFaults) (nowISO : String) (proc : List String) (v : Vault)
    (file : TFile)
    (h1 : s.rootFolder.isEmpty = false)
    (h2 : strStartsWith file.path (s.rootFolder ++ "/") = false) :
    Ext.processFile s faults nowISO proc v file = ⟨proc, file, v, [], s⟩ := by
  simp [Ext.processFile, Ext.processBody, h1, h2, List.erase_cons_head]

/-- Witness for C8: a file outside the `tf` root with a classifying
property value is untouched. -/
theorem taskflow_C8_witness :
    Ext.processFile sampleExtS noFaults "now" [] sampleVault
      ⟨"elsewhere/y.md", "y.md", some "elsewhere",
        some [("p", FMValue.bool true)]⟩ =
      ⟨[], ⟨"elsewhere/y.md", "y.md", some "elsewhere",
        some [("p", FMValue.bool true)]⟩, sampleVault, [], sampleExtS⟩ :=
  taskflow_C8_root_scope sampleExtS noFaults "now" [] sampleVault
    ⟨"elsewhere/y.md", "y.md", some "elsewhere",
      some [("p", FMValue.bool true)]⟩ (by decide) (by decide)

end Taskflow

namespace Taskflow

/-- C7. No error raised inside the classification-and-move body ever
propagates out of the change-notification entry point: in both variants,
whenever the body of `processFile` ends with a thrown error (any failing
storage or metadata operation), `processFile` returns normally with the
state the last successful step produced, appends an error log naming the
document's original path, and releases the guard (guard set unchanged). -/
theorem taskflow_C7_error_containment
    (s : Ext.TaskflowPluginSettings) (sb : Basic.TaskflowPluginSettings)
    (faults faultsB : HostFaults) (nowISO nowISOB : String)
    (proc procB : List String) (v vB : Vault) (file fileB : TFile)
    (msg msgB : String)
    (h0 : proc.contains file.path = false)
    (h1 : (Ext.processBody s faults nowISO v file).err = some msg)
    (h0B : procB.contains fileB.path = false)
    (h1B : (Basic.processBody sb faultsB nowISOB vB fileB).err = some msgB) :
    Ext.processFile s faults nowISO proc v file =
      ⟨proc, (Ext.processBody s faults nowISO v file).file,
        (Ext.processBody s faults nowISO v file).vault,
        (Ext.processBody s faults nowISO v file).effects
          ++ [Effect.logError ("Taskflow Plugin: Error processing \""
            ++ file.path ++ "\":")], s⟩ ∧
    Basic.processFile sb faultsB nowISOB procB vB fileB =
      ⟨procB, (Basic.processBody sb faultsB nowISOB vB fileB).file,
        (Basic.processBody sb faultsB nowISOB vB fileB).vault,
        (Basic.processBody sb faultsB nowISOB vB fileB).effects
          ++ [Effect.logError ("Taskflow Plugin: Error processing \""
            ++ fileB.path ++ "\":")], sb⟩ := by
  constructor
  · have h0' : file.path ∉ proc := by simpa using h0
    simp [Ext.processFile, h0', h1, List.erase_cons_head]
  · have h0B' : fileB.path ∉ procB := by simpa using h0B
    simp [Basic.processFile, h0B', h1B, List.erase_cons_head]

/-- Witness for C7 at concrete failing renames in both variants. -/
theorem taskflow_C7_witness :
    Ext.processFile sampleExtS renameFault "now" [] sampleVault
        sampleFileTrue =
      ⟨[], (Ext.processBody sampleExtS renameFault "now" sampleVault
          sampleFileTrue).file,
        (Ext.processBody sampleExtS renameFault "now" sampleVault
          sampleFileTrue).vault,
        (Ext.processBody sampleExtS renameFault "now" sampleVault
          sampleFileTrue).effects
          ++ [Effect.logError ("Taskflow Plugin: Error processing \""
            ++ sampleFileTrue.path ++ "\":")], sampleExtS⟩ ∧
    Basic.processFile sampleBasicS renameFault "now" [] sampleVault
        sampleBasicFile =
      ⟨[], (Basic.processBody sampleBasicS renameFault "now" sampleVault
          sampleBasicFile).file,
        (Basic.processBody sampleBasicS renameFault "now" sampleVault
          sampleBasicFile).vault,
        (Basic.processBody sampleBasicS renameFault "now" sampleVault
          sampleBasicFile).effects
          ++ [Effect.logError ("Taskflow Plugin: Error processing \""
            ++ sampleBasicFile.path ++ "\":")], sampleBasicS⟩ :=
  taskflow_C7_error_containment sampleExtS sampleBasicS renameFault
    renameFault "now" "now" [] [] sampleVault sampleVault sampleFileTrue
    sampleBasicFile "rename failed" "rename failed"
    (by decide) (by decide) (by decide) (by decide)

end Taskflow

namespace Taskflow.Ext

/-- Every effect either side of `ensureFolderGo` carries is a folder
creation, provided the accumulator only holds folder creations. -/
theorem ensureFolderGo_effects (faults : HostFaults) (parts : List String) :
    ∀ v effs current, onlyCreates effs →
      onlyCreates (exceptEffects (ensureFolderGo faults v effs current parts)) := by
  induction parts with
  | nil =>
    intro v effs current h
    simpa [ensureFolderGo, exceptEffects] using h
  | cons part rest ih =>
    intro v effs current h
    simp only [ensureFolderGo]
    split
    · exact ih _ _ _ h
    · split
      · simpa [exceptEffects] using h
      · refine ih _ _ _ ?_
        intro e he
        rcases List.mem_append.1 he with h1 | h1
        · exact h e h1
        · simp only [List.mem_singleton] at h1
          exact ⟨_, h1⟩

/-- `ensureFolder` only ever records folder creations. -/
theorem ensureFolder_effects (faults : HostFaults) (v : Vault)
    (folderPath : String) :
    onlyCreates (exceptEffects (ensureFolder faults v folderPath)) := by
  unfold ensureFolder
  split
  · intro e he
    simp [exceptEffects] at he
  · exact ensureFolderGo_effects faults _ v [] ""
      (by intro e he; simp at he)

/-- `ensureFolderGo` never removes a vault entry. -/
theorem ensureFolderGo_vault (faults : HostFaults) (parts : List String) :
    ∀ v effs current pe, pe ∈ v.entries →
      pe ∈ (exceptVault (ensureFolderGo faults v effs current parts)).entries := by
  induction parts with
  | nil =>
    intro v effs current pe h
    simpa [ensureFolderGo, exceptVault] using h
  | cons part rest ih =>
    intro v effs current pe h
    simp only [ensureFolderGo]
    split
    · exact ih _ _ _ _ h
    · split
      · simpa [exceptVault] using h
      · refine ih _ _ _ _ ?_
        simp only [Vault.createFolder, List.mem_append]
        exact Or.inl h

/-- `ensureFolder` never removes a vault entry. -/
theorem ensureFolder_vault (faults : HostFaults) (v : Vault)
    (folderPath : String) :
    ∀ pe ∈ v.entries,
      pe ∈ (exceptVault (ensureFolder faults v folderPath)).entries := by
  intro pe h
  unfold ensureFolder
  split
  · simpa [exceptVault] using h
  · exact ensureFolderGo_vault faults _ v [] "" pe h

/-- The effects `stampStep` appends beyond its input trace are frontmatter
patches of `completedDatePropertyName` at the new path. -/
theorem stampStep_effects (en : Bool) (ck : String) (faults : HostFaults)
    (nowISO : String) (file1 : TFile) (v2 : Vault) (effs1 : List Effect)
    (fm : Frontmatter) (pv : Bool) (newPath : String) :
    ∀ e ∈ (stampStep en ck faults nowISO file1 v2 effs1 fm pv newPath).effects,
      e ∈ effs1 ∨ e = Effect.fmSetKey newPath ck nowISO ∨
        e = Effect.fmDeleteKey newPath ck := by
  intro e he
  simp only [stampStep] at he
  split at he
  · split at he
    · split at he
      · exact Or.inl he
      · split at he
        · rcases List.mem_append.1 he with h1 | h1
          · exact Or.inl h1
          · simp only [List.mem_singleton] at h1
            exact Or.inr (Or.inl h1)
        · exact Or.inl he
    · split at he
      · exact Or.inl he
      · rcases List.mem_append.1 he with h1 | h1
        · exact Or.inl h1
        · simp only [List.mem_singleton] at h1
          exact Or.inr (Or.inr h1)
  · exact Or.inl he

/-- `stampStep` does not touch the vault. -/
theorem stampStep_vault (en : Bool) (ck : String) (faults : HostFaults)
    (nowISO : String) (file1 : TFile) (v2 : Vault) (effs1 : List Effect)
    (fm : Frontmatter) (pv : Bool) (newPath : String) :
    (stampStep en ck faults nowISO file1 v2 effs1 fm pv newPath).vault = v2 := by
  simp only [stampStep]
  split
  · split
    · split
      · rfl
      · split <;> rfl
    · split <;> rfl
  · rfl

/-- Shape of the effects of the extended `moveStep`: folder creations,
the single rename of this file into `targetFolder`, a log line, or a
frontmatter patch of `completedDatePropertyName` at the new path. -/
theorem moveStep_effects (s : TaskflowPluginSettings) (faults : HostFaults)
    (nowISO : String) (v : Vault) (file : TFile) (fm : Frontmatter)
    (pv : Bool) (targetFolder : String) :
    ∀ e ∈ (moveStep s faults nowISO v file fm pv targetFolder).effects,
      (∃ p, e = Effect.createFolder p) ∨ (∃ m, e = Effect.log m) ∨
      e = Effect.rename file.path (targetFolder ++ "/" ++ file.name) ∨
      e = Effect.fmSetKey (targetFolder ++ "/" ++ file.name)
        s.completedDatePropertyName nowISO ∨
      e = Effect.fmDeleteKey (targetFolder ++ "/" ++ file.name)
        s.completedDatePropertyName := by
  intro e he
  simp only [moveStep] at he
  split at he
  · simp at he
  · split at he
    next v1 effs msg heq =>
      have hoc := ensureFolder_effects faults v targetFolder
      rw [heq] at hoc
      simp only [exceptEffects] at hoc
      exact Or.inl (hoc e he)
    next v1 effs heq =>
      have hoc := ensureFolder_effects faults v targetFolder
      rw [heq] at hoc
      simp only [exceptEffects] at hoc
      split at he
      · exact Or.inl (hoc e he)
      · rcases stampStep_effects _ _ _ _ _ _ _ _ _ _ e he with hs | hs | hs
        · rcases List.mem_append.1 hs with h1 | h1
          · exact Or.inl (hoc e h1)
          · simp only [List.mem_cons, List.mem_singleton,
              List.not_mem_nil, or_false] at h1
            rcases h1 with h1 | h1
            · exact Or.inr (Or.inr (Or.inl h1))
            · exact Or.inr (Or.inl ⟨_, h1⟩)
        · exact Or.inr (Or.inr (Or.inr (Or.inl hs)))
        · exact Or.inr (Or.inr (Or.inr (Or.inr hs)))

/-- Shape of the effects of the extended body: a settings warning, folder
creations, log lines, or — only when a strict boolean classified the
document — the rename into the resolved container for that boolean or a
frontmatter patch of `completedDatePropertyName` there. -/
theorem processBody_effects (s : TaskflowPluginSettings) (faults : HostFaults)
    (nowISO : String) (v : Vault) (file : TFile) :
    ∀ e ∈ (processBody s faults nowISO v file).effects,
      (∃ m, e = Effect.logWarn m) ∨ (∃ p, e = Effect.createFolder p) ∨
      (∃ m, e = Effect.log m) ∨
      ∃ fm b, file.frontmatter = some fm ∧
        fmLookup fm s.propertyName = some (FMValue.bool b) ∧
        (e = Effect.rename file.path (targetOf s b ++ "/" ++ file.name) ∨
         e = Effect.fmSetKey (targetOf s b ++ "/" ++ file.name)
           s.completedDatePropertyName nowISO ∨
         e = Effect.fmDeleteKey (targetOf s b ++ "/" ++ file.name)
           s.completedDatePropertyName) := by
  intro e he
  simp only [processBody] at he
  split at he
  · simp at he
  · split at he
    · simp only [List.mem_singleton] at he
      exact Or.inl ⟨_, he⟩
    · split at he
      · simp at he
      next fm hfm =>
        split at he
        next hval =>
          rcases moveStep_effects s faults nowISO v file fm true _ e he with
            h | h | h | h | h
          · exact Or.inr (Or.inl h)
          · exact Or.inr (Or.inr (Or.inl h))
          · exact Or.inr (Or.inr (Or.inr ⟨fm, true, hfm, hval,
              Or.inl (by simpa [targetOf] using h)⟩))
          · exact Or.inr (Or.inr (Or.inr ⟨fm, true, hfm, hval,
              Or.inr (Or.inl (by simpa [targetOf] using h))⟩))
          · exact Or.inr (Or.inr (Or.inr ⟨fm, true, hfm, hval,
              Or.inr (Or.inr (by simpa [targetOf] using h))⟩))
        next hne =>
          split at he
          next hval =>
            rcases moveStep_effects s faults nowISO v file fm false _ e he with
              h | h | h | h | h
            · exact Or.inr (Or.inl h)
            · exact Or.inr (Or.inr (Or.inl h))
            · exact Or.inr (Or.inr (Or.inr ⟨fm, false, hfm, hval,
                Or.inl (by simpa [targetOf] using h)⟩))
            · exact Or.inr (Or.inr (Or.inr ⟨fm, false, hfm, hval,
                Or.inr (Or.inl (by simpa [targetOf] using h))⟩))
            · exact Or.inr (Or.inr (Or.inr ⟨fm, false, hfm, hval,
                Or.inr (Or.inr (by simpa [targetOf] using h))⟩))
          next hne2 =>
            simp at he

end Taskflow.Ext

namespace Taskflow

/-- A trace whose every effect is neither a rename nor a frontmatter patch
satisfies `noMoveOrPatch`. -/
theorem noMoveOrPatch_of_shape (l : List Effect)
    (h : ∀ e ∈ l, e.isRename = false ∧ e.isFmPatch = false) :
    noMoveOrPatch l = true := by
  simp only [noMoveOrPatch, List.all_eq_true]
  intro e he
  rcases h e he with ⟨h1, h2⟩
  simp [h1, h2]

end Taskflow

namespace Taskflow.Ext

/-- If the document already sits in the target folder, `moveStep` is a
strict no-op. -/
theorem moveStep_parent_eq (s : TaskflowPluginSettings) (faults : HostFaults)
    (nowISO : String) (v : Vault) (file : TFile) (fm : Frontmatter)
    (pv : Bool) (targetFolder : String)
    (h : file.parentPath.getD "" = targetFolder) :
    moveStep s faults nowISO v file fm pv targetFolder = ⟨file, v, [], none⟩ := by
  simp only [moveStep, h, if_true]

/-- If the document's parent equals the resolved target of whatever strict
boolean its property holds, the extended body leaves file and vault alone,
throws nothing, and performs no rename and no patch. -/
theorem processBody_parent_eq (s : TaskflowPluginSettings)
    (faults : HostFaults) (nowISO : String) (v : Vault) (file : TFile)
    (h : ∀ fm b, file.frontmatter = some fm →
        fmLookup fm s.propertyName = some (FMValue.bool b) →
        file.parentPath.getD "" = targetOf s b) :
    (processBody s faults nowISO v file).file = file ∧
    (processBody s faults nowISO v file).vault = v ∧
    (processBody s faults nowISO v file).err = none ∧
    noMoveOrPatch (processBody s faults nowISO v file).effects = true := by
  simp only [processBody]
  split
  · exact ⟨rfl, rfl, rfl, rfl⟩
  · split
    · refine ⟨rfl, rfl, rfl, ?_⟩
      simp [noMoveOrPatch, Effect.isRename, Effect.isFmPatch]
    · split
      · exact ⟨rfl, rfl, rfl, rfl⟩
      next fm hfm =>
        split
        next hval =>
          rw [moveStep_parent_eq s faults nowISO v file fm true _
            (by simpa [targetOf] using h fm true hfm hval)]
          exact ⟨rfl, rfl, rfl, rfl⟩
        next =>
          split
          next hval =>
            rw [moveStep_parent_eq s faults nowISO v file fm false _
              (by simpa [targetOf] using h fm false hfm hval)]
            exact ⟨rfl, rfl, rfl, rfl⟩
          next => exact ⟨rfl, rfl, rfl, rfl⟩

/-- `processFile`-level consequence of `processBody_parent_eq`. -/
theorem processFile_parent_eq (s : TaskflowPluginSettings)
    (faults : HostFaults) (nowISO : String) (proc : List String) (v : Vault)
    (file : TFile)
    (h : ∀ fm b, file.frontmatter = some fm →
        fmLookup fm s.propertyName = some (FMValue.bool b) →
        file.parentPath.getD "" = targetOf s b) :
    noMoveOrPatch (processFile s faults nowISO proc v file).effects = true ∧
    (processFile s faults nowISO proc v file).file = file ∧
    (processFile s faults nowISO proc v file).vault = v := by
  obtain ⟨h1, h2, h3, h4⟩ := processBody_parent_eq s faults nowISO v file h
  simp only [processFile]
  split
  · exact ⟨rfl, rfl, rfl⟩
  · split
    next heq => exact ⟨h4, h1, h2⟩
    next msg heq => rw [h3] at heq; cases heq

/-- The effect trace of `processFile` is the body's trace, possibly
followed by one error log. -/
theorem processFile_effects_sub (s : TaskflowPluginSettings)
    (faults : HostFaults) (nowISO : String) (proc : List String) (v : Vault)
    (file : TFile) :
    ∀ e ∈ (processFile s faults nowISO proc v file).effects,
      e ∈ (processBody s faults nowISO v file).effects ∨
        ∃ m, e = Effect.logError m := by
  intro e he
  simp only [processFile] at he
  split at he
  · simp at he
  · split at he
    · exact Or.inl he
    · rcases List.mem_append.1 he with h1 | h1
      · exact Or.inl h1
      · simp only [List.mem_singleton] at h1
        exact Or.inr ⟨_, h1⟩

/-- `noMoveOrPatch` transfers from the body to the whole call. -/
theorem processFile_noMoveOrPatch (s : TaskflowPluginSettings)
    (faults : HostFaults) (nowISO : String) (proc : List String) (v : Vault)
    (file : TFile)
    (h : noMoveOrPatch (processBody s faults nowISO v file).effects = true) :
    noMoveOrPatch (processFile s faults nowISO proc v file).effects = true := by
  apply noMoveOrPatch_of_shape
  intro e he
  rcases processFile_effects_sub s faults nowISO proc v file e he with h1 | ⟨m, rfl⟩
  · simp only [noMoveOrPatch, List.all_eq_true] at h
    have := h e h1
    constructor
    · cases e <;> simp_all [Effect.isRename]
    · cases e <;> simp_all [Effect.isFmPatch]
  · exact ⟨rfl, rfl⟩

end Taskflow.Ext

namespace Taskflow.Basic

/-- The effects `renameAndStamp` appends beyond its input trace: a log
line, the rename, or a patch of `completedDatePropertyName` at the new
path. -/
theorem renameAndStamp_effects (s : TaskflowPluginSettings)
    (faults : HostFaults) (nowISO : String) (file : TFile) (fm : Frontmatter)
    (pv : Bool) (targetFolder newPath : String) (v1 : Vault)
    (effs : List Effect) :
    ∀ e ∈ (renameAndStamp s faults nowISO file fm pv targetFolder newPath
        v1 effs).effects,
      e ∈ effs ∨ (∃ m, e = Effect.log m) ∨
      e = Effect.rename file.path newPath ∨
      e = Effect.fmSetKey newPath s.completedDatePropertyName nowISO ∨
      e = Effect.fmDeleteKey newPath s.completedDatePropertyName := by
  intro e he
  simp only [renameAndStamp] at he
  split at he
  · exact Or.inl he
  · rcases Ext.stampStep_effects _ _ _ _ _ _ _ _ _ _ e he with hs | hs | hs
    · rcases List.mem_append.1 hs with h1 | h1
      · exact Or.inl h1
      · simp only [List.mem_cons, List.not_mem_nil, or_false] at h1
        rcases h1 with h1 | h1
        · exact Or.inr (Or.inr (Or.inl h1))
        · exact Or.inr (Or.inl ⟨_, h1⟩)
    · exact Or.inr (Or.inr (Or.inr (Or.inl hs)))
    · exact Or.inr (Or.inr (Or.inr (Or.inr hs)))

/-- Shape of the effects of the basic `moveStep`. -/
theorem moveStep_effects_basic (s : TaskflowPluginSettings) (faults : HostFaults)
    (nowISO : String) (v : Vault) (file : TFile) (fm : Frontmatter)
    (pv : Bool) (targetFolder : String) :
    ∀ e ∈ (moveStep s faults nowISO v file fm pv targetFolder).effects,
      (∃ p, e = Effect.createFolder p) ∨ (∃ m, e = Effect.log m) ∨
      (∃ m, e = Effect.logError m) ∨
      e = Effect.rename file.path (targetFolder ++ "/" ++ file.name) ∨
      e = Effect.fmSetKey (targetFolder ++ "/" ++ file.name)
        s.completedDatePropertyName nowISO ∨
      e = Effect.fmDeleteKey (targetFolder ++ "/" ++ file.name)
        s.completedDatePropertyName := by
  intro e he
  simp only [moveStep] at he
  split at he
  · simp at he
  · split at he
    · split at he
      · simp at he
      · rcases renameAndStamp_effects _ _ _ _ _ _ _ _ _ _ e he with
          h | h | h | h | h
        · simp only [List.mem_singleton] at h
          exact Or.inl ⟨_, h⟩
        · exact Or.inr (Or.inl h)
        · exact Or.inr (Or.inr (Or.inr (Or.inl h)))
        · exact Or.inr (Or.inr (Or.inr (Or.inr (Or.inl h))))
        · exact Or.inr (Or.inr (Or.inr (Or.inr (Or.inr h))))
    · simp only [List.mem_singleton] at he
      exact Or.inr (Or.inr (Or.inl ⟨_, he⟩))
    · rcases renameAndStamp_effects _ _ _ _ _ _ _ _ _ _ e he with
        h | h | h | h | h
      · simp at h
      · exact Or.inr (Or.inl h)
      · exact Or.inr (Or.inr (Or.inr (Or.inl h)))
      · exact Or.inr (Or.inr (Or.inr (Or.inr (Or.inl h))))
      · exact Or.inr (Or.inr (Or.inr (Or.inr (Or.inr h))))

/-- Shape of the effects of the basic body. -/
theorem processBody_effects_basic (s : TaskflowPluginSettings) (faults : HostFaults)
    (nowISO : String) (v : Vault) (file : TFile) :
    ∀ e ∈ (processBody s faults nowISO v file).effects,
      (∃ m, e = Effect.logWarn m) ∨ (∃ p, e = Effect.createFolder p) ∨
      (∃ m, e = Effect.log m) ∨ (∃ m, e = Effect.logError m) ∨
      ∃ fm b, file.frontmatter = some fm ∧
        fmLookup fm s.propertyName = some (FMValue.bool b) ∧
        (e = Effect.rename file.path (targetOf s b ++ "/" ++ file.name) ∨
         e = Effect.fmSetKey (targetOf s b ++ "/" ++ file.name)
           s.completedDatePropertyName nowISO ∨
         e = Effect.fmDeleteKey (targetOf s b ++ "/" ++ file.name)
           s.completedDatePropertyName) := by
  intro e he
  simp only [processBody] at he
  split at he
  · simp only [List.mem_singleton] at he
    exact Or.inl ⟨_, he⟩
  · split at he
    · simp at he
    next fm hfm =>
      split at he
      next hval =>
        rcases moveStep_effects_basic s faults nowISO v file fm true _ e he with
          h | h | h | h | h | h
        · exact Or.inr (Or.inl h)
        · exact Or.inr (Or.inr (Or.inl h))
        · exact Or.inr (Or.inr (Or.inr (Or.inl h)))
        · exact Or.inr (Or.inr (Or.inr (Or.inr ⟨fm, true, hfm, hval,
            Or.inl (by simpa [targetOf] using h)⟩)))
        · exact Or.inr (Or.inr (Or.inr (Or.inr ⟨fm, true, hfm, hval,
            Or.inr (Or.inl (by simpa [targetOf] using h))⟩)))
        · exact Or.inr (Or.inr (Or.inr (Or.inr ⟨fm, true, hfm, hval,
            Or.inr (Or.inr (by simpa [targetOf] using h))⟩)))
      next =>
        split at he
        next hval =>
          rcases moveStep_effects_basic s faults nowISO v file fm false _ e he with
            h | h | h | h | h | h
          · exact Or.inr (Or.inl h)
          · exact Or.inr (Or.inr (Or.inl h))
          · exact Or.inr (Or.inr (Or.inr (Or.inl h)))
          · exact Or.inr (Or.inr (Or.inr (Or.inr ⟨fm, false, hfm, hval,
              Or.inl (by simpa [targetOf] using h)⟩)))
          · exact Or.inr (Or.inr (Or.inr (Or.inr ⟨fm, false, hfm, hval,
              Or.inr (Or.inl (by simpa [targetOf] using h))⟩)))
          · exact Or.inr (Or.inr (Or.inr (Or.inr ⟨fm, false, hfm, hval,
              Or.inr (Or.inr (by simpa [targetOf] using h))⟩)))
        next => simp at he

/-- If the document already sits in the target folder, the basic `moveStep`
is a strict no-op. -/
theorem moveStep_parent_eq_basic (s : TaskflowPluginSettings) (faults : HostFaults)
    (nowISO : String) (v : Vault) (file : TFile) (fm : Frontmatter)
    (pv : Bool) (targetFolder : String)
    (h : file.parentPath.getD "" = targetFolder) :
    moveStep s faults nowISO v file fm pv targetFolder = ⟨file, v, [], none⟩ := by
  simp only [moveStep, h, if_true]

/-- If the document's parent equals the target of whatever strict boolean
its property holds, the basic body leaves file and vault alone, throws
nothing, and performs no rename and no patch. -/
theorem processBody_parent_eq_basic (s : TaskflowPluginSettings)
    (faults : HostFaults) (nowISO : String) (v : Vault) (file : TFile)
    (h : ∀ fm b, file.frontmatter = some fm →
        fmLookup fm s.propertyName = some (FMValue.bool b) →
        file.parentPath.getD "" = targetOf s b) :
    (processBody s faults nowISO v file).file = file ∧
    (processBody s faults nowISO v file).vault = v ∧
    (processBody s faults nowISO v file).err = none ∧
    noMoveOrPatch (processBody s faults nowISO v file).effects = true := by
  simp only [processBody]
  split
  · refine ⟨rfl, rfl, rfl, ?_⟩
    simp [noMoveOrPatch, Effect.isRename, Effect.isFmPatch]
  · split
    · exact ⟨rfl, rfl, rfl, rfl⟩
    next fm hfm =>
      split
      next hval =>
        rw [moveStep_parent_eq_basic s faults nowISO v file fm true _
          (by simpa [targetOf] using h fm true hfm hval)]
        exact ⟨rfl, rfl, rfl, rfl⟩
      next =>
        split
        next hval =>
          rw [moveStep_parent_eq_basic s faults nowISO v file fm false _
            (by simpa [targetOf] using h fm false hfm hval)]
          exact ⟨rfl, rfl, rfl, rfl⟩
        next => exact ⟨rfl, rfl, rfl, rfl⟩

/-- `processFile`-level consequence of `processBody_parent_eq_basic`. -/
theorem processFile_parent_eq_basic (s : TaskflowPluginSettings)
    (faults : HostFaults) (nowISO : String) (proc : List String) (v : Vault)
    (file : TFile)
    (h : ∀ fm b, file.frontmatter = some fm →
        fmLookup fm s.propertyName = some (FMValue.bool b) →
        file.parentPath.getD "" = targetOf s b) :
    noMoveOrPatch (processFile s faults nowISO proc v file).effects = true ∧
    (processFile s faults nowISO proc v file).file = file ∧
    (processFile s faults nowISO proc v file).vault = v := by
  obtain ⟨h1, h2, h3, h4⟩ := processBody_parent_eq_basic s faults nowISO v file h
  simp only [processFile]
  split
  · exact ⟨rfl, rfl, rfl⟩
  · split
    next heq => exact ⟨h4, h1, h2⟩
    next msg heq => rw [h3] at heq; cases heq

/-- The effect trace of the basic `processFile` is the body's trace,
possibly followed by one error log. -/
theorem processFile_effects_sub_basic (s : TaskflowPluginSettings)
    (faults : HostFaults) (nowISO : String) (proc : List String) (v : Vault)
    (file : TFile) :
    ∀ e ∈ (processFile s faults nowISO proc v file).effects,
      e ∈ (processBody s faults nowISO v file).effects ∨
        ∃ m, e = Effect.logError m := by
  intro e he
  simp only [processFile] at he
  split at he
  · simp at he
  · split at he
    · exact Or.inl he
    · rcases List.mem_append.1 he with h1 | h1
      · exact Or.inl h1
      · simp only [List.mem_singleton] at h1
        exact Or.inr ⟨_, h1⟩

/-- `noMoveOrPatch` transfers from the body to the whole call. -/
theorem processFile_noMoveOrPatch_basic (s : TaskflowPluginSettings)
    (faults : HostFaults) (nowISO : String) (proc : List String) (v : Vault)
    (file : TFile)
    (h : noMoveOrPatch (processBody s faults nowISO v file).effects = true) :
    noMoveOrPatch (processFile s faults nowISO proc v file).effects = true := by
  apply noMoveOrPatch_of_shape
  intro e he
  rcases processFile_effects_sub_basic s faults nowISO proc v file e he with h1 | ⟨m, rfl⟩
  · simp only [noMoveOrPatch, List.all_eq_true] at h
    have := h e h1
    constructor
    · cases e <;> simp_all [Effect.isRename]
    · cases e <;> simp_all [Effect.isFmPatch]
  · exact ⟨rfl, rfl⟩

end Taskflow.Basic

namespace Taskflow

/-- C2. Strict-boolean trigger, both variants: if the value stored
under `propertyName` is not the strict boolean `true` or `false` (absent
frontmatter, absent key, string, number, or null), `processFile` performs
no relocation and no metadata patch; and any relocation it ever performs
goes from the document's own path to the resolved true-container (value
`true`) or the resolved false-container (value `false`), joined with the
document's name. -/
theorem taskflow_C2_strict_boolean_trigger
    (s : Ext.TaskflowPluginSettings) (sb : Basic.TaskflowPluginSettings)
    (faults : HostFaults) (nowISO : String) (proc : List String) (v : Vault) :
    (∀ file : TFile,
      (∀ fm, file.frontmatter = some fm →
        ∀ b, fmLookup fm s.propertyName ≠ some (FMValue.bool b)) →
      noMoveOrPatch (Ext.processFile s faults nowISO proc v file).effects
        = true) ∧
    (∀ (file : TFile) (oldP newP : String),
      Effect.rename oldP newP ∈
          (Ext.processFile s faults nowISO proc v file).effects →
      ∃ fm b, file.frontmatter = some fm ∧
        fmLookup fm s.propertyName = some (FMValue.bool b) ∧
        oldP = file.path ∧ newP = Ext.targetOf s b ++ "/" ++ file.name) ∧
    (∀ file : TFile,
      (∀ fm, file.frontmatter = some fm →
        ∀ b, fmLookup fm sb.propertyName ≠ some (FMValue.bool b)) →
      noMoveOrPatch (Basic.processFile sb faults nowISO proc v file).effects
        = true) ∧
    (∀ (file : TFile) (oldP newP : String),
      Effect.rename oldP newP ∈
          (Basic.processFile sb faults nowISO proc v file).effects →
      ∃ fm b, file.frontmatter = some fm ∧
        fmLookup fm sb.propertyName = some (FMValue.bool b) ∧
        oldP = file.path ∧ newP = Basic.targetOf sb b ++ "/" ++ file.name) := by
  refine ⟨?_, ?_, ?_, ?_⟩
  · intro file hv
    apply Ext.processFile_noMoveOrPatch
    apply noMoveOrPatch_of_shape
    intro e he
    rcases Ext.processBody_effects s faults nowISO v file e he with
      ⟨m, rfl⟩ | ⟨p, rfl⟩ | ⟨m, rfl⟩ | ⟨fm, b, hfm, hlk, _⟩
    · exact ⟨rfl, rfl⟩
    · exact ⟨rfl, rfl⟩
    · exact ⟨rfl, rfl⟩
    · exact absurd hlk (hv fm hfm b)
  · intro file oldP newP hmem
    rcases Ext.processFile_effects_sub s faults nowISO proc v file _ hmem with
      h1 | ⟨m, hm⟩
    · rcases Ext.processBody_effects s faults nowISO v file _ h1 with
        ⟨m, hm⟩ | ⟨p, hm⟩ | ⟨m, hm⟩ | ⟨fm, b, hfm, hlk, h3⟩
      · cases hm
      · cases hm
      · cases hm
      · rcases h3 with h3 | h3 | h3
        · injection h3 with e1 e2
          exact ⟨fm, b, hfm, hlk, e1, e2⟩
        · cases h3
        · cases h3
    · cases hm
  · intro file hv
    apply Basic.processFile_noMoveOrPatch_basic
    apply noMoveOrPatch_of_shape
    intro e he
    rcases Basic.processBody_effects_basic sb faults nowISO v file e he with
      ⟨m, rfl⟩ | ⟨p, rfl⟩ | ⟨m, rfl⟩ | ⟨m, rfl⟩ | ⟨fm, b, hfm, hlk, _⟩
    · exact ⟨rfl, rfl⟩
    · exact ⟨rfl, rfl⟩
    · exact ⟨rfl, rfl⟩
    · exact ⟨rfl, rfl⟩
    · exact absurd hlk (hv fm hfm b)
  · intro file oldP newP hmem
    rcases Basic.processFile_effects_sub_basic sb faults nowISO proc v file _ hmem with
      h1 | ⟨m, hm⟩
    · rcases Basic.processBody_effects_basic sb faults nowISO v file _ h1 with
        ⟨m, hm⟩ | ⟨p, hm⟩ | ⟨m, hm⟩ | ⟨m, hm⟩ | ⟨fm, b, hfm, hlk, h3⟩
      · cases hm
      · cases hm
      · cases hm
      · cases hm
      · rcases h3 with h3 | h3 | h3
        · injection h3 with e1 e2
          exact ⟨fm, b, hfm, hlk, e1, e2⟩
        · cases h3
        · cases h3
    · cases hm

/-- Witness for C2: a string `"true"` and the number `1` under the
property produce no relocation and no patch in either variant. -/
theorem taskflow_C2_witness :
    noMoveOrPatch (Ext.processFile sampleExtS noFaults "now" [] sampleVault
      ⟨"tf/a.md", "a.md", some "tf",
        some [("p", FMValue.str "true")]⟩).effects = true ∧
    noMoveOrPatch (Basic.processFile sampleBasicS noFaults "now" []
      sampleVault ⟨"b.md", "b.md", some "",
        some [("p", FMValue.num 1)]⟩).effects = true :=
  ⟨(taskflow_C2_strict_boolean_trigger sampleExtS sampleBasicS noFaults "now"
      [] sampleVault).1 _
      (by intro fm hfm b; cases hfm; cases b <;> decide),
   (taskflow_C2_strict_boolean_trigger sampleExtS sampleBasicS noFaults "now"
      [] sampleVault).2.2.1 _
      (by intro fm hfm b; cases hfm; cases b <;> decide)⟩

/-- C5. Idempotence, both variants: for a document whose current parent
folder string-equals the resolved target container of its strict-boolean
property value, `processFile` performs no rename and no frontmatter write
and leaves file and vault unchanged; hence a second invocation on the
state left by the first again performs no rename and no frontmatter
write. -/
theorem taskflow_C5_idempotence
    (s : Ext.TaskflowPluginSettings) (sb : Basic.TaskflowPluginSettings)
    (faults faultsB : HostFaults) (nowISO nowISOB : String)
    (proc procB : List String) (v vB : Vault) (file fileB : TFile)
    (h : ∀ fm b, file.frontmatter = some fm →
        fmLookup fm s.propertyName = some (FMValue.bool b) →
        file.parentPath.getD "" = Ext.targetOf s b)
    (hB : ∀ fm b, fileB.frontmatter = some fm →
        fmLookup fm sb.propertyName = some (FMValue.bool b) →
        fileB.parentPath.getD "" = Basic.targetOf sb b) :
    (noMoveOrPatch (Ext.processFile s faults nowISO proc v file).effects
        = true ∧
      (Ext.processFile s faults nowISO proc v file).file = file ∧
      (Ext.processFile s faults nowISO proc v file).vault = v ∧
      noMoveOrPatch (Ext.processFile s faults nowISO
        (Ext.processFile s faults nowISO proc v file).processing
        (Ext.processFile s faults nowISO proc v file).vault
        (Ext.processFile s faults nowISO proc v file).file).effects = true) ∧
    (noMoveOrPatch (Basic.processFile sb faultsB nowISOB procB vB fileB).effects
        = true ∧
      (Basic.processFile sb faultsB nowISOB procB vB fileB).file = fileB ∧
      (Basic.processFile sb faultsB nowISOB procB vB fileB).vault = vB ∧
      noMoveOrPatch (Basic.processFile sb faultsB nowISOB
        (Basic.processFile sb faultsB nowISOB procB vB fileB).processing
        (Basic.processFile sb faultsB nowISOB procB vB fileB).vault
        (Basic.processFile sb faultsB nowISOB procB vB fileB).file).effects
        = true) := by
  obtain ⟨e1, e2, e3⟩ := Ext.processFile_parent_eq s faults nowISO proc v file h
  obtain ⟨b1, b2, b3⟩ :=
    Basic.processFile_parent_eq_basic sb faultsB nowISOB procB vB fileB hB
  refine ⟨⟨e1, e2, e3, ?_⟩, ⟨b1, b2, b3, ?_⟩⟩
  · rw [e2, e3]
    exact (Ext.processFile_parent_eq s faults nowISO _ v file h).1
  · rw [b2, b3]
    exact (Basic.processFile_parent_eq_basic sb faultsB nowISOB _ vB fileB hB).1

/-- Witness for C5 at documents already sitting in their resolved target
containers in both variants. -/
theorem taskflow_C5_witness :
    noMoveOrPatch (Ext.processFile sampleExtS noFaults "now" [] sampleVault
      ⟨"tf/done/x.md", "x.md", some "tf/done",
        some [("p", FMValue.bool true)]⟩).effects = true ∧
    noMoveOrPatch (Basic.processFile sampleBasicS noFaults "now" []
      sampleVault ⟨"02 - Completed/y.md", "y.md", some "02 - Completed",
        some [("p", FMValue.bool true)]⟩).effects = true :=
  ⟨(taskflow_C5_idempotence sampleExtS sampleBasicS noFaults noFaults "now"
      "now" [] [] sampleVault sampleVault
      ⟨"tf/done/x.md", "x.md", some "tf/done",
        some [("p", FMValue.bool true)]⟩
      ⟨"02 - Completed/y.md", "y.md", some "02 - Completed",
        some [("p", FMValue.bool true)]⟩
      (by intro fm b hfm hval; cases hfm; cases b
          · exact absurd hval (by decide)
          · decide)
      (by intro fm b hfm hval; cases hfm; cases b
          · exact absurd hval (by decide)
          · decide)).1.1,
   (taskflow_C5_idempotence sampleExtS sampleBasicS noFaults noFaults "now"
      "now" [] [] sampleVault sampleVault
      ⟨"tf/done/x.md", "x.md", some "tf/done",
        some [("p", FMValue.bool true)]⟩
      ⟨"02 - Completed/y.md", "y.md", some "02 - Completed",
        some [("p", FMValue.bool true)]⟩
      (by intro fm b hfm hval; cases hfm; cases b
          · exact absurd hval (by decide)
          · decide)
      (by intro fm b hfm hval; cases hfm; cases b
          · exact absurd hval (by decide)
          · decide)).2.1⟩

end Taskflow

namespace Taskflow.Ext

/-- With an incomplete resolved configuration the extended body either
no-ops on the scope check or stops at the completeness warning. -/
theorem processBody_incomplete (s : TaskflowPluginSettings)
    (faults : HostFaults) (nowISO : String) (v : Vault) (file : TFile)
    (hC : s.propertyName.isEmpty = true ∨
      (buildPath s.rootFolder s.trueFolder).isEmpty = true ∨
      (buildPath s.rootFolder s.falseFolder).isEmpty = true) :
    processBody s faults nowISO v file = ⟨file, v, [], none⟩ ∨
    processBody s faults nowISO v file =
      ⟨file, v, [Effect.logWarn "Taskflow Plugin: Settings are incomplete."],
        none⟩ := by
  have hcomp : (s.propertyName.isEmpty
      || (buildPath s.rootFolder s.trueFolder).isEmpty
      || (buildPath s.rootFolder s.falseFolder).isEmpty) = true := by
    rcases hC with h | h | h <;> simp [h]
  simp only [processBody]
  split
  · exact Or.inl rfl
  · exact Or.inr rfl

/-- `processFile`-level consequence of `processBody_incomplete`. -/
theorem processFile_incomplete (s : TaskflowPluginSettings)
    (faults : HostFaults) (nowISO : String) (proc : List String) (v : Vault)
    (file : TFile)
    (hC : s.propertyName.isEmpty = true ∨
      (buildPath s.rootFolder s.trueFolder).isEmpty = true ∨
      (buildPath s.rootFolder s.falseFolder).isEmpty = true) :
    processFile s faults nowISO proc v file = ⟨proc, file, v, [], s⟩ ∨
    processFile s faults nowISO proc v file =
      ⟨proc, file, v,
        [Effect.logWarn "Taskflow Plugin: Settings are incomplete."], s⟩ := by
  simp only [processFile]
  split
  · exact Or.inl rfl
  · rcases processBody_incomplete s faults nowISO v file hC with h | h
    · refine Or.inl ?_
      rw [h]
      simp [List.erase_cons_head]
    · refine Or.inr ?_
      rw [h]
      simp [List.erase_cons_head]

end Taskflow.Ext

namespace Taskflow.Basic

/-- With an incomplete raw configuration the basic body stops at the
completeness warning. -/
theorem processBody_incomplete_basic (s : TaskflowPluginSettings)
    (faults : HostFaults) (nowISO : String) (v : Vault) (file : TFile)
    (hC : s.propertyName.isEmpty = true ∨ s.trueFolder.isEmpty = true ∨
      s.falseFolder.isEmpty = true) :
    processBody s faults nowISO v file =
      ⟨file, v, [Effect.logWarn "Taskflow Plugin: Settings are incomplete."],
        none⟩ := by
  have hcomp : (s.propertyName.isEmpty || s.trueFolder.isEmpty
      || s.falseFolder.isEmpty) = true := by
    rcases hC with h | h | h <;> simp [h]
  simp only [processBody]
  split
  · rfl
  next h => exact absurd hcomp (by simpa using h)

end Taskflow.Basic

namespace Taskflow

/-- C4, amended. Configuration completeness is judged on the resolved
containers: if `propertyName`, the resolved true-container
(`buildPath rootFolder trueFolder`), or the resolved false-container is
empty, every extended-variant notification leaves the file and vault
unchanged and performs no rename and no patch; for an in-scope, unguarded
document the result is exactly the settings warning. In the basic variant
the resolved containers are the raw `trueFolder`/`falseFolder` fields and
an unguarded call returns exactly the settings warning. -/
theorem taskflow_C4_config_completeness
    (s : Ext.TaskflowPluginSettings) (sb : Basic.TaskflowPluginSettings)
    (faults faultsB : HostFaults) (nowISO nowISOB : String)
    (proc procB : List String) (v vB : Vault) (file fileB : TFile)
    (hC : s.propertyName.isEmpty = true ∨
      (buildPath s.rootFolder s.trueFolder).isEmpty = true ∨
      (buildPath s.rootFolder s.falseFolder).isEmpty = true)
    (hCB : sb.propertyName.isEmpty = true ∨ sb.trueFolder.isEmpty = true ∨
      sb.falseFolder.isEmpty = true) :
    ((Ext.processFile s faults nowISO proc v file).file = file ∧
     (Ext.processFile s faults nowISO proc v file).vault = v ∧
     noMoveOrPatch (Ext.processFile s faults nowISO proc v file).effects
       = true ∧
     (proc.contains file.path = false →
      (s.rootFolder.isEmpty = true ∨
        strStartsWith file.path (s.rootFolder ++ "/") = true) →
      Ext.processFile s faults nowISO proc v file =
        ⟨proc, file, v,
          [Effect.logWarn "Taskflow Plugin: Settings are incomplete."], s⟩)) ∧
    ((Basic.processFile sb faultsB nowISOB procB vB fileB).file = fileB ∧
     (Basic.processFile sb faultsB nowISOB procB vB fileB).vault = vB ∧
     noMoveOrPatch
       (Basic.processFile sb faultsB nowISOB procB vB fileB).effects = true ∧
     (procB.contains fileB.path = false →
      Basic.processFile sb faultsB nowISOB procB vB fileB =
        ⟨procB, fileB, vB,
          [Effect.logWarn "Taskflow Plugin: Settings are incomplete."], sb⟩)) := by
  constructor
  · have hmain := Ext.processFile_incomplete s faults nowISO proc v file hC
    refine ⟨?_, ?_, ?_, ?_⟩
    · rcases hmain with h | h <;> rw [h]
    · rcases hmain with h | h <;> rw [h]
    · rcases hmain with h | h <;>
        simp [h, noMoveOrPatch, Effect.isRename, Effect.isFmPatch]
    · intro h0 hscope
      have hcond : (!s.rootFolder.isEmpty
          && !strStartsWith file.path (s.rootFolder ++ "/")) = false := by
        rcases hscope with h | h <;> simp [h]
      have hcomp : (s.propertyName.isEmpty
          || (buildPath s.rootFolder s.trueFolder).isEmpty
          || (buildPath s.rootFolder s.falseFolder).isEmpty) = true := by
        rcases hC with h | h | h <;> simp [h]
      have hbody : Ext.processBody s faults nowISO v file =
          ⟨file, v,
            [Effect.logWarn "Taskflow Plugin: Settings are incomplete."],
            none⟩ := by
        simp only [Ext.processBody]
        split
        next hcondT => exact absurd hcondT (by simp [hcond])
        · rfl
      have h0' : file.path ∉ proc := by simpa using h0
      simp [Ext.processFile, h0', hbody, List.erase_cons_head]
  · have hbody := Basic.processBody_incomplete_basic sb faultsB nowISOB vB fileB hCB
    refine ⟨?_, ?_, ?_, ?_⟩
    · simp only [Basic.processFile]
      split
      · rfl
      · rw [hbody]
    · simp only [Basic.processFile]
      split
      · rfl
      · rw [hbody]
    · simp only [Basic.processFile]
      split
      · rfl
      · rw [hbody]
        simp [noMoveOrPatch, Effect.isRename, Effect.isFmPatch,
          List.erase_cons_head]
    · intro h0B
      have h0B' : fileB.path ∉ procB := by simpa using h0B
      simp [Basic.processFile, h0B', hbody, List.erase_cons_head]

/-- Witness for C4 (amended) at a concrete incomplete configuration:
`trueFolder` empty with empty root in the extended variant, `falseFolder`
empty in the basic variant. -/
theorem taskflow_C4_witness :
    Ext.processFile ⟨"", "", "p", "", "inbox", "", false, "", false, "cd", 1⟩
        noFaults "now" [] sampleVault sampleBasicFile =
      ⟨[], sampleBasicFile, sampleVault,
        [Effect.logWarn "Taskflow Plugin: Settings are incomplete."],
        ⟨"", "", "p", "", "inbox", "", false, "", false, "cd", 1⟩⟩ ∧
    Basic.processFile ⟨"p", "02 - Completed", "", false, "cd"⟩ noFaults
        "now" [] sampleVault sampleBasicFile =
      ⟨[], sampleBasicFile, sampleVault,
        [Effect.logWarn "Taskflow Plugin: Settings are incomplete."],
        ⟨"p", "02 - Completed", "", false, "cd"⟩⟩ :=
  ⟨(taskflow_C4_config_completeness
      ⟨"", "", "p", "", "inbox", "", false, "", false, "cd", 1⟩
      ⟨"p", "02 - Completed", "", false, "cd"⟩ noFaults noFaults "now" "now"
      [] [] sampleVault sampleVault sampleBasicFile sampleBasicFile
      (Or.inr (Or.inl (by decide))) (Or.inr (Or.inr (by decide)))).1.2.2.2
      (by decide) (Or.inl (by decide)),
   (taskflow_C4_config_completeness
      ⟨"", "", "p", "", "inbox", "", false, "", false, "cd", 1⟩
      ⟨"p", "02 - Completed", "", false, "cd"⟩ noFaults noFaults "now" "now"
      [] [] sampleVault sampleVault sampleBasicFile sampleBasicFile
      (Or.inr (Or.inl (by decide))) (Or.inr (Or.inr (by decide)))).2.2.2.2
      (by decide)⟩

/-- Counterexample to C4 as stated: in the extended variant the
completeness check uses the root-resolved containers, so an empty
`falseFolder` field with a non-empty root does **not** make notifications
no-ops — the document is still relocated (to the root folder). -/
theorem taskflow_C4_counterexample :
    emptyFalseExtS.falseFolder = "" ∧
    Effect.rename "tf/sub/x.md" "tf/x.md" ∈
      (Ext.processFile emptyFalseExtS noFaults "now" [] c4Vault
        c4File).effects := by
  constructor
  · rfl
  · decide

end Taskflow

namespace Taskflow.Ext

/-- The running-maximum update of the scan loop is `Nat.max`. -/
theorem max_if (a n : Nat) : (if n > a then n else a) = max a n := by
  by_cases h : n > a
  · simp [h, Nat.max_eq_right (Nat.le_of_lt h)]
  · simp [h, Nat.max_eq_left (Nat.le_of_not_lt h)]

/-- The scan loop of `detectTaskCounter` computes the maximum of its
accumulator and every task number parsed from an in-scope file name. -/
theorem detect_loop (root : String) (files : List TFile) :
    ∀ acc : Nat,
      files.foldl (fun maxNum f =>
        if !(inScope root f) then maxNum
        else
          match parseTaskNum f.name with
          | some num => if num > maxNum then num else maxNum
          | none => maxNum) acc =
      max acc (((files.filter (inScope root)).filterMap
        (fun f => parseTaskNum f.name)).foldr max 0) := by
  induction files with
  | nil => intro acc; simp
  | cons f rest ih =>
    intro acc
    rw [List.foldl_cons, ih]
    by_cases hs : inScope root f = true
    · cases hp : parseTaskNum f.name with
      | none => simp [List.filter_cons, hs, hp]
      | some n => simp [List.filter_cons, hs, hp, max_if, Nat.max_assoc]
    · have hs' : inScope root f = false := by simpa using hs
      simp [List.filter_cons, hs']

end Taskflow.Ext

namespace Taskflow

/-- C9. `detectTaskCounter` sets `taskCounter` to exactly one above the
maximum task-identifier number parsed (pattern `[TASK-<digits>]` at the
start of the name) from the in-scope documents — those under
`rootFolder/`, or all documents when the root is empty — and to 1 when no
in-scope document name carries a task identifier. -/
theorem taskflow_C9_task_counter (s : Ext.TaskflowPluginSettings)
    (files : List TFile) :
    (Ext.detectTaskCounter s files).taskCounter =
      ((files.filter (Ext.inScope s.rootFolder)).filterMap
        (fun f => Ext.parseTaskNum f.name)).foldr max 0 + 1 ∧
    ((files.filter (Ext.inScope s.rootFolder)).filterMap
        (fun f => Ext.parseTaskNum f.name) = [] →
      (Ext.detectTaskCounter s files).taskCounter = 1) := by
  have h1 : (Ext.detectTaskCounter s files).taskCounter =
      ((files.filter (Ext.inScope s.rootFolder)).filterMap
        (fun f => Ext.parseTaskNum f.name)).foldr max 0 + 1 := by
    simp only [Ext.detectTaskCounter]
    rw [Ext.detect_loop s.rootFolder files 0]
    simp
  refine ⟨h1, fun h2 => ?_⟩
  rw [h1, h2]
  rfl

/-- Witness for C9: two in-scope task files numbered 7 and 12 and one
out-of-scope file numbered 99 give a counter of 13. -/
theorem taskflow_C9_witness :
    (Ext.detectTaskCounter sampleExtS
      [⟨"tf/[TASK-007] a.md", "[TASK-007] a.md", some "tf", none⟩,
       ⟨"tf/[TASK-012] b.md", "[TASK-012] b.md", some "tf", none⟩,
       ⟨"out/[TASK-099] c.md", "[TASK-099] c.md", some "out", none⟩]).taskCounter
      = 13 := by
  rw [(taskflow_C9_task_counter sampleExtS
      [⟨"tf/[TASK-007] a.md", "[TASK-007] a.md", some "tf", none⟩,
       ⟨"tf/[TASK-012] b.md", "[TASK-012] b.md", some "tf", none⟩,
       ⟨"out/[TASK-099] c.md", "[TASK-099] c.md", some "out", none⟩]).1]
  decide

end Taskflow

namespace Taskflow

/-- `createFolder` does not change lookups at other paths. -/
theorem get_createFolder_ne (v : Vault) (p q : String) (h : ¬ q = p) :
    (v.createFolder p).get q = v.get q := by
  simp only [Vault.get, Vault.createFolder]
  rw [List.find?_append]
  have hpq : (p == q) = false := beq_eq_false_iff_ne.2 (fun hh => h hh.symm)
  have h2 : ([(p, Entity.folder)].find? (fun pe => pe.1 == q)) = none := by
    simp [List.find?, hpq]
  rw [h2]
  cases hf : v.entries.find? (fun pe => pe.1 == q) <;> simp

end Taskflow

namespace Taskflow.Ext

/-- Every prefix built from non-empty segments is strictly longer than the
prefix it extends. -/
theorem prefixesFrom_length (parts : List String) :
    ∀ current, (∀ part ∈ parts, part.isEmpty = false) →
      ∀ q ∈ prefixesFrom current parts, current.length < q.length := by
  induction parts with
  | nil =>
    intro current _ q hq
    simp [prefixesFrom] at hq
  | cons part rest ih =>
    intro current hne q hq
    simp only [prefixesFrom, List.mem_cons] at hq
    have hpart : 0 < part.length := by
      have h0 := hne part (List.mem_cons_self part rest)
      cases part with
      | mk l =>
        cases l with
        | nil => exact absurd h0 (by decide)
        | cons c cs => simp [String.length]
    have hc : current.length <
        (if current.isEmpty then part else current ++ "/" ++ part).length := by
      split
      next hcur =>
        rw [(String.isEmpty_iff current).1 hcur]
        simpa using hpart
      next hcur =>
        simp only [String.length_append]
        omega
    rcases hq with rfl | hq
    · exact hc
    · exact Nat.lt_trans hc
        (ih _ (fun p hp => hne p (List.mem_cons_of_mem _ hp)) q hq)

/-- `ensureFolderGo` with a fault-free host succeeds and creates exactly
the prefixes missing from the vault, ancestor-first. -/
theorem ensureFolderGo_missing (parts : List String) :
    ∀ (v : Vault) (effs : List Effect) (current : String),
      (∀ part ∈ parts, part.isEmpty = false) →
      ensureFolderGo noFaults v effs current parts =
        .ok (⟨v.entries ++ ((prefixesFrom current parts).filter
              (fun p => (v.get p).isNone)).map (fun p => (p, Entity.folder))⟩,
          effs ++ ((prefixesFrom current parts).filter
              (fun p => (v.get p).isNone)).map Effect.createFolder) := by
  induction parts with
  | nil =>
    intro v effs current _
    simp [ensureFolderGo, prefixesFrom]
  | cons part rest ih =>
    intro v effs current hne
    simp only [ensureFolderGo, prefixesFrom]
    split
    next x heq =>
      rw [ih v effs _ (fun p hp => hne p (List.mem_cons_of_mem _ hp))]
      simp [List.filter_cons, heq]
    next heq =>
      rw [if_neg (by simp [noFaults])]
      have hsub : ∀ p ∈ prefixesFrom
          (if current.isEmpty then part else current ++ "/" ++ part) rest,
          ((v.createFolder
            (if current.isEmpty then part
             else current ++ "/" ++ part)).get p).isNone =
          (v.get p).isNone := by
        intro p hp
        have hlen := prefixesFrom_length rest _
          (fun x hx => hne x (List.mem_cons_of_mem _ hx)) p hp
        have hne2 : ¬ p =
            (if current.isEmpty then part else current ++ "/" ++ part) := by
          intro hpe
          rw [hpe] at hlen
          exact Nat.lt_irrefl _ hlen
        rw [get_createFolder_ne v _ p hne2]
      rw [ih (v.createFolder _) (effs ++ [Effect.createFolder _]) _
        (fun p hp => hne p (List.mem_cons_of_mem _ hp))]
      rw [List.filter_congr hsub]
      simp [List.filter_cons, heq, Vault.createFolder, List.append_assoc]

/-- `ensureFolder` with a fault-free host succeeds, extending the vault by
exactly the missing ancestor prefixes of the target path (in ancestor-first
order) and recording exactly those creations. -/
theorem ensureFolder_missing (v : Vault) (folderPath : String)
    (h0 : folderPath.isEmpty = false)
    (hne : ∀ part ∈ splitSlash folderPath, part.isEmpty = false) :
    ensureFolder noFaults v folderPath =
      .ok (⟨v.entries ++ ((folderPrefixes folderPath).filter
            (fun p => (v.get p).isNone)).map (fun p => (p, Entity.folder))⟩,
        ((folderPrefixes folderPath).filter
            (fun p => (v.get p).isNone)).map Effect.createFolder) := by
  simp only [ensureFolder]
  rw [if_neg (by simp [h0])]
  rw [ensureFolderGo_missing (splitSlash folderPath) v [] "" hne]
  simp [folderPrefixes]

end Taskflow.Ext

namespace Taskflow

/-- C3, amended. Target-container creation. Extended variant:
`ensureFolder` on a fault-free host creates the target container and every
missing intermediate along its path, ancestor-first, but performs no
entity-kind check — a path component existing as a non-container is simply
skipped, no error is raised and the move is still attempted. Basic
variant: only the final target path is checked; when it exists as a
non-container entity the engine logs an error and returns before any
storage mutation, with no rename attempted. -/
theorem taskflow_C3_ensure_target_container
    (v : Vault) (folderPath : String)
    (sb : Basic.TaskflowPluginSettings) (faultsB : HostFaults)
    (nowISOB : String) (vB : Vault) (fileB : TFile) (fm : Frontmatter)
    (pv : Bool) (targetFolder : String)
    (h0 : folderPath.isEmpty = false)
    (hne : ∀ part ∈ splitSlash folderPath, part.isEmpty = false)
    (hparent : ¬ fileB.parentPath.getD "" = targetFolder)
    (hget : vB.get targetFolder = some Entity.file) :
    Ext.ensureFolder noFaults v folderPath =
      .ok (⟨v.entries ++ ((Ext.folderPrefixes folderPath).filter
            (fun p => (v.get p).isNone)).map (fun p => (p, Entity.folder))⟩,
        ((Ext.folderPrefixes folderPath).filter
            (fun p => (v.get p).isNone)).map Effect.createFolder) ∧
    Basic.moveStep sb faultsB nowISOB vB fileB fm pv targetFolder =
      ⟨fileB, vB, [Effect.logError ("Taskflow Plugin: Target path \""
        ++ targetFolder ++ "\" is a file, not a folder.")], none⟩ := by
  refine ⟨Ext.ensureFolder_missing v folderPath h0 hne, ?_⟩
  simp only [Basic.moveStep]
  rw [if_neg hparent]
  split
  next heq => rw [heq] at hget; cases hget
  next heq => rfl
  next heq => rw [heq] at hget; cases hget

/-- Witness for C3 (amended): creating `a/b/c` over a vault holding only
`a` creates `a/b` then `a/b/c`; the basic variant aborts with an error log
when the target `T` exists as a file. -/
theorem taskflow_C3_witness :
    Ext.ensureFolder noFaults ⟨[("a", Entity.folder)]⟩ "a/b/c" =
      .ok (⟨[("a", Entity.folder), ("a/b", Entity.folder),
          ("a/b/c", Entity.folder)]⟩,
        [Effect.createFolder "a/b", Effect.createFolder "a/b/c"]) ∧
    Basic.moveStep sampleBasicS noFaults "now" ⟨[("T", Entity.file)]⟩
        ⟨"x.md", "x.md", some "", some [("p", FMValue.bool true)]⟩
        [("p", FMValue.bool true)] true "T" =
      ⟨⟨"x.md", "x.md", some "", some [("p", FMValue.bool true)]⟩,
        ⟨[("T", Entity.file)]⟩,
        [Effect.logError
          "Taskflow Plugin: Target path \"T\" is a file, not a folder."],
        none⟩ := by
  have h := taskflow_C3_ensure_target_container ⟨[("a", Entity.folder)]⟩
    "a/b/c" sampleBasicS noFaults "now" ⟨[("T", Entity.file)]⟩
    ⟨"x.md", "x.md", some "", some [("p", FMValue.bool true)]⟩
    [("p", FMValue.bool true)] true "T"
    (by decide) (by decide) (by decide) (by decide)
  refine ⟨?_, h.2⟩
  rw [h.1]
  rfl

/-- Counterexample to C3 as stated: in the extended variant a target path
that exists as a non-container entity does **not** abort the operation —
no error is raised and the move is still attempted (the rename is issued,
and the trace holds no error log). -/
theorem taskflow_C3_counterexample :
    c3Vault.get "done" = some Entity.file ∧
    (Ext.processFile c3ExtS noFaults "now" [] c3Vault c3File).effects =
      [Effect.rename "x.md" "done/x.md",
       Effect.log "Taskflow Plugin: Moved \"x.md\" to \"done/x.md\""] := by
  exact ⟨rfl, rfl⟩

end Taskflow

namespace Taskflow.Ext

/-- With a fault-free host `ensureFolderGo` always returns `.ok`. -/
theorem ensureFolderGo_noFaults_ok (parts : List String) :
    ∀ v effs current, ∃ v1 effs1,
      ensureFolderGo noFaults v effs current parts = .ok (v1, effs1) := by
  induction parts with
  | nil => intro v effs current; exact ⟨v, effs, rfl⟩
  | cons part rest ih =>
    intro v effs current
    simp only [ensureFolderGo]
    split
    · exact ih _ _ _
    · rw [if_neg (by simp [noFaults])]
      exact ih _ _ _

/-- With a fault-free host `ensureFolder` always returns `.ok`. -/
theorem ensureFolder_noFaults_ok (v : Vault) (folderPath : String) :
    ∃ v1 effs1, ensureFolder noFaults v folderPath = .ok (v1, effs1) := by
  simp only [ensureFolder]
  split
  · exact ⟨v, [], rfl⟩
  · exact ensureFolderGo_noFaults_ok _ v [] ""

end Taskflow.Ext

namespace Taskflow

/-- C6, amended. Completed-date stamping, once a fault-free
classification has decided to relocate (`enableCompletedDate` on,
non-empty `completedDatePropertyName`, parent ≠ target): on value `true`
the key is set to the current timestamp string only when its current value
is falsy (absent, null, `false`, `0`, or the empty string) — a truthy
existing value is never overwritten; on value `false` the key is removed
unconditionally. -/
theorem taskflow_C6_completed_date (s : Ext.TaskflowPluginSettings)
    (nowISO : String) (v : Vault) (file : TFile) (fm : Frontmatter)
    (pv : Bool) (targetFolder : String)
    (hen : s.enableCompletedDate = true)
    (hck : s.completedDatePropertyName.isEmpty = false)
    (hparent : ¬ file.parentPath.getD "" = targetFolder) :
    (pv = true → isFalsyOpt (fmLookup fm s.completedDatePropertyName) = true →
      (Ext.moveStep s noFaults nowISO v file fm pv
        targetFolder).file.frontmatter =
        some (fmSet fm s.completedDatePropertyName (FMValue.str nowISO))) ∧
    (pv = true → isFalsyOpt (fmLookup fm s.completedDatePropertyName) = false →
      (Ext.moveStep s noFaults nowISO v file fm pv
        targetFolder).file.frontmatter = some fm) ∧
    (pv = false →
      (Ext.moveStep s noFaults nowISO v file fm pv
        targetFolder).file.frontmatter =
        some (fmDelete fm s.completedDatePropertyName)) := by
  obtain ⟨v1, effs1, hok⟩ := Ext.ensureFolder_noFaults_ok v targetFolder
  have hms : Ext.moveStep s noFaults nowISO v file fm pv targetFolder =
      Ext.stampStep s.enableCompletedDate s.completedDatePropertyName noFaults
        nowISO
        ⟨targetFolder ++ "/" ++ file.name, file.name, some targetFolder,
          file.frontmatter⟩
        (v1.rename file.path (targetFolder ++ "/" ++ file.name))
        (effs1 ++ [Effect.rename file.path (targetFolder ++ "/" ++ file.name),
          Effect.log ("Taskflow Plugin: Moved \"" ++ file.path ++ "\" to \""
            ++ (targetFolder ++ "/" ++ file.name) ++ "\"")])
        fm pv (targetFolder ++ "/" ++ file.name) := by
    simp only [Ext.moveStep]
    rw [if_neg hparent, hok]
    rfl
  rw [hms]
  refine ⟨fun hpv hfal => ?_, fun hpv hfal => ?_, fun hpv => ?_⟩ <;> subst hpv
  · simp [Ext.stampStep, hen, hck, hfal, noFaults]
  · simp [Ext.stampStep, hen, hck, hfal, noFaults]
  · simp [Ext.stampStep, hen, hck, noFaults]

/-- Witness for C6 (amended): a `false` classification removes the `cd`
key. -/
theorem taskflow_C6_witness :
    (Ext.moveStep c6S noFaults "2026-10-11T12:00:00+02:00" c6Vault
      ⟨"done/x.md", "x.md", some "done",
        some [("p", FMValue.bool false), ("cd", FMValue.str "old")]⟩
      [("p", FMValue.bool false), ("cd", FMValue.str "old")] false
      "inbox").file.frontmatter =
      some (fmDelete [("p", FMValue.bool false), ("cd", FMValue.str "old")]
        "cd") :=
  (taskflow_C6_completed_date c6S "2026-10-11T12:00:00+02:00" c6Vault
    ⟨"done/x.md", "x.md", some "done",
      some [("p", FMValue.bool false), ("cd", FMValue.str "old")]⟩
    [("p", FMValue.bool false), ("cd", FMValue.str "old")] false "inbox"
    (by decide) (by decide) (by decide)).2.2 rfl

/-- Counterexample to C6 as stated: the guard is JS falsiness, not
absence/emptiness — a key present with the value `false` is overwritten by
the timestamp. -/
theorem taskflow_C6_counterexample :
    fmLookup [("p", FMValue.bool true), ("cd", FMValue.bool false)] "cd" =
      some (FMValue.bool false) ∧
    (Ext.processFile c6S noFaults "2026-10-11T12:00:00+02:00" [] c6Vault
        c6File).file.frontmatter =
      some [("p", FMValue.bool true),
        ("cd", FMValue.str "2026-10-11T12:00:00+02:00")] :=
  ⟨rfl, rfl⟩

end Taskflow

namespace Taskflow

/-- Setting one key leaves every other key's lookup unchanged. -/
theorem fmLookup_fmSet_ne (fm : Frontmatter) (key k : String) (v : FMValue)
    (h : ¬ k = key) :
    fmLookup (fmSet fm key v) k = fmLookup fm k := by
  induction fm with
  | nil =>
    simp only [fmSet, fmLookup]
    rw [if_neg (fun hh => h hh.symm)]
  | cons p rest ih =>
    obtain ⟨pk, pv⟩ := p
    simp only [fmSet]
    by_cases hpk : pk = key
    · subst hpk
      simp only [if_pos rfl, fmLookup]
      rw [if_neg (fun hh => h hh.symm), if_neg (fun hh => h hh.symm)]
    · rw [if_neg hpk]
      simp only [fmLookup]
      by_cases hpkk : pk = k
      · rw [if_pos hpkk, if_pos hpkk]
      · rw [if_neg hpkk, if_neg hpkk, ih]

/-- Deleting one key leaves every other key's lookup unchanged. -/
theorem fmLookup_fmDelete_ne (fm : Frontmatter) (key k : String)
    (h : ¬ k = key) :
    fmLookup (fmDelete fm key) k = fmLookup fm k := by
  induction fm with
  | nil => rfl
  | cons p rest ih =>
    obtain ⟨pk, pv⟩ := p
    simp only [fmDelete]
    by_cases hpk : pk = key
    · subst hpk
      rw [if_pos rfl, ih]
      simp only [fmLookup]
      rw [if_neg (fun hh => h hh.symm)]
    · rw [if_neg hpk]
      simp only [fmLookup]
      by_cases hpkk : pk = k
      · rw [if_pos hpkk, if_pos hpkk]
      · rw [if_neg hpkk, if_neg hpkk, ih]

/-- An entry whose path differs from the renamed one survives a rename
untouched. -/
theorem mem_rename_of_ne (v : Vault) (oldP newP : String)
    (pe : String × Entity) (h : pe ∈ v.entries) (hne : ¬ pe.1 = oldP) :
    pe ∈ (v.rename oldP newP).entries := by
  simp only [Vault.rename, List.mem_map]
  refine ⟨pe, h, ?_⟩
  rw [if_neg (by simp [beq_eq_false_iff_ne.2 hne])]

end Taskflow

namespace Taskflow.Ext

/-- The file `stampStep` returns carries the input file's frontmatter, or
`fm` with the completed-date key set, or `fm` itself, or `fm` with that
key deleted. -/
theorem stampStep_file_frontmatter (en : Bool) (ck : String)
    (faults : HostFaults) (nowISO : String) (file1 : TFile) (v2 : Vault)
    (effs1 : List Effect) (fm : Frontmatter) (pv : Bool) (newPath : String) :
    (stampStep en ck faults nowISO file1 v2 effs1 fm pv
        newPath).file.frontmatter = file1.frontmatter ∨
    (stampStep en ck faults nowISO file1 v2 effs1 fm pv
        newPath).file.frontmatter = some (fmSet fm ck (FMValue.str nowISO)) ∨
    (stampStep en ck faults nowISO file1 v2 effs1 fm pv
        newPath).file.frontmatter = some fm ∨
    (stampStep en ck faults nowISO file1 v2 effs1 fm pv
        newPath).file.frontmatter = some (fmDelete fm ck) := by
  simp only [stampStep]
  split
  · split
    · split
      · exact Or.inl rfl
      · split
        · exact Or.inr (Or.inl rfl)
        · exact Or.inr (Or.inr (Or.inl rfl))
    · split
      · exact Or.inl rfl
      · exact Or.inr (Or.inr (Or.inr rfl))
  · exact Or.inl rfl

/-- The file `moveStep` returns carries the input file's frontmatter or a
single-key modification of `fm` at `completedDatePropertyName`. -/
theorem moveStep_file_frontmatter (s : TaskflowPluginSettings)
    (faults : HostFaults) (nowISO : String) (v : Vault) (file : TFile)
    (fm : Frontmatter) (pv : Bool) (targetFolder : String) :
    (moveStep s faults nowISO v file fm pv
        targetFolder).file.frontmatter = file.frontmatter ∨
    (moveStep s faults nowISO v file fm pv
        targetFolder).file.frontmatter =
      some (fmSet fm s.completedDatePropertyName (FMValue.str nowISO)) ∨
    (moveStep s faults nowISO v file fm pv
        targetFolder).file.frontmatter = some fm ∨
    (moveStep s faults nowISO v file fm pv
        targetFolder).file.frontmatter =
      some (fmDelete fm s.completedDatePropertyName) := by
  simp only [moveStep]
  split
  · exact Or.inl rfl
  · split
    · exact Or.inl rfl
    · split
      · exact Or.inl rfl
      · exact stampStep_file_frontmatter _ _ _ _ _ _ _ _ _ _

/-- The file the extended body returns carries the input frontmatter or a
single-key modification of the input frontmatter at
`completedDatePropertyName`. -/
theorem processBody_file_frontmatter (s : TaskflowPluginSettings)
    (faults : HostFaults) (nowISO : String) (v : Vault) (file : TFile) :
    (processBody s faults nowISO v file).file.frontmatter
      = file.frontmatter ∨
    ∃ fm, file.frontmatter = some fm ∧
      ((processBody s faults nowISO v file).file.frontmatter =
        some (fmSet fm s.completedDatePropertyName (FMValue.str nowISO)) ∨
       (processBody s faults nowISO v file).file.frontmatter = some fm ∨
       (processBody s faults nowISO v file).file.frontmatter =
        some (fmDelete fm s.completedDatePropertyName)) := by
  simp only [processBody]
  split
  · exact Or.inl rfl
  · split
    · exact Or.inl rfl
    · split
      · exact Or.inl rfl
      next fm hfm =>
        split
        · rcases moveStep_file_frontmatter s faults nowISO v file fm true _
            with h | h | h | h
          · exact Or.inl h
          · exact Or.inr ⟨fm, hfm, Or.inl h⟩
          · exact Or.inr ⟨fm, hfm, Or.inr (Or.inl h)⟩
          · exact Or.inr ⟨fm, hfm, Or.inr (Or.inr h)⟩
        · split
          · rcases moveStep_file_frontmatter s faults nowISO v file fm false _
              with h | h | h | h
            · exact Or.inl h
            · exact Or.inr ⟨fm, hfm, Or.inl h⟩
            · exact Or.inr ⟨fm, hfm, Or.inr (Or.inl h)⟩
            · exact Or.inr ⟨fm, hfm, Or.inr (Or.inr h)⟩
          · exact Or.inl rfl

/-- `moveStep` never drops a vault entry at a path other than the
document's. -/
theorem moveStep_vault_mem (s : TaskflowPluginSettings) (faults : HostFaults)
    (nowISO : String) (v : Vault) (file : TFile) (fm : Frontmatter)
    (pv : Bool) (targetFolder : String) (pe : String × Entity)
    (hpe : pe ∈ v.entries) (hne : ¬ pe.1 = file.path) :
    pe ∈ (moveStep s faults nowISO v file fm pv targetFolder).vault.entries := by
  simp only [moveStep]
  split
  · exact hpe
  · split
    next v1 effs msg heq =>
      have hv := ensureFolder_vault faults v targetFolder pe hpe
      rw [heq] at hv
      simpa [exceptVault] using hv
    next v1 effs heq =>
      have hv1 : pe ∈ v1.entries := by
        have hv := ensureFolder_vault faults v targetFolder pe hpe
        rw [heq] at hv
        simpa [exceptVault] using hv
      split
      · exact hv1
      · rw [stampStep_vault]
        exact mem_rename_of_ne v1 _ _ pe hv1 hne

/-- The extended body never drops a vault entry at a path other than the
document's. -/
theorem processBody_vault_mem (s : TaskflowPluginSettings)
    (faults : HostFaults) (nowISO : String) (v : Vault) (file : TFile)
    (pe : String × Entity) (hpe : pe ∈ v.entries)
    (hne : ¬ pe.1 = file.path) :
    pe ∈ (processBody s faults nowISO v file).vault.entries := by
  simp only [processBody]
  split
  · exact hpe
  · split
    · exact hpe
    · split
      · exact hpe
      next fm hfm =>
        split
        · exact moveStep_vault_mem s faults nowISO v file fm true _ pe hpe hne
        · split
          · exact moveStep_vault_mem s faults nowISO v file fm false _ pe
              hpe hne
          · exact hpe

/-- `processFile` returns either the untouched input file and vault
(reentrant path) or the body's. -/
theorem processFile_file_vault_cases (s : TaskflowPluginSettings)
    (faults : HostFaults) (nowISO : String) (proc : List String) (v : Vault)
    (file : TFile) :
    ((processFile s faults nowISO proc v file).file = file ∧
     (processFile s faults nowISO proc v file).vault = v) ∨
    ((processFile s faults nowISO proc v file).file =
       (processBody s faults nowISO v file).file ∧
     (processFile s faults nowISO proc v file).vault =
       (processBody s faults nowISO v file).vault) := by
  simp only [processFile]
  split
  · exact Or.inl ⟨rfl, rfl⟩
  · split <;> exact Or.inr ⟨rfl, rfl⟩

end Taskflow.Ext

namespace Taskflow

/-- C10. Frame property of the extended `processFile`: the settings
(including `taskCounter`) are never written; every rename originates at
the processed document's own path; every frontmatter patch touches only
the key `completedDatePropertyName`; every other frontmatter key of the
document keeps its value; and every vault entry at any other path
survives. Holds for every fault pattern. -/
theorem taskflow_C10_frame (s : Ext.TaskflowPluginSettings)
    (faults : HostFaults) (nowISO : String) (proc : List String) (v : Vault)
    (file : TFile) :
    (Ext.processFile s faults nowISO proc v file).settings = s ∧
    (∀ p q, Effect.rename p q ∈
        (Ext.processFile s faults nowISO proc v file).effects →
      p = file.path) ∧
    (∀ pth k val, Effect.fmSetKey pth k val ∈
        (Ext.processFile s faults nowISO proc v file).effects →
      k = s.completedDatePropertyName) ∧
    (∀ pth k, Effect.fmDeleteKey pth k ∈
        (Ext.processFile s faults nowISO proc v file).effects →
      k = s.completedDatePropertyName) ∧
    (∀ k, ¬ k = s.completedDatePropertyName →
      fmLookupO (Ext.processFile s faults nowISO proc v
        file).file.frontmatter k = fmLookupO file.frontmatter k) ∧
    (∀ pe ∈ v.entries, ¬ pe.1 = file.path →
      pe ∈ (Ext.processFile s faults nowISO proc v file).vault.entries) := by
  refine ⟨Ext.processFile_settings s faults nowISO proc v file,
    ?_, ?_, ?_, ?_, ?_⟩
  · intro p q hmem
    rcases Ext.processFile_effects_sub s faults nowISO proc v file _ hmem with
      h1 | ⟨m, hm⟩
    · rcases Ext.processBody_effects s faults nowISO v file _ h1 with
        ⟨m, hm⟩ | ⟨pp, hm⟩ | ⟨m, hm⟩ | ⟨fm, b, hfm, hlk, h3⟩
      · cases hm
      · cases hm
      · cases hm
      · rcases h3 with h3 | h3 | h3
        · injection h3 with e1 e2
        · cases h3
        · cases h3
    · cases hm
  · intro pth k val hmem
    rcases Ext.processFile_effects_sub s faults nowISO proc v file _ hmem with
      h1 | ⟨m, hm⟩
    · rcases Ext.processBody_effects s faults nowISO v file _ h1 with
        ⟨m, hm⟩ | ⟨pp, hm⟩ | ⟨m, hm⟩ | ⟨fm, b, hfm, hlk, h3⟩
      · cases hm
      · cases hm
      · cases hm
      · rcases h3 with h3 | h3 | h3
        · cases h3
        · injection h3 with e1 e2 e3
        · cases h3
    · cases hm
  · intro pth k hmem
    rcases Ext.processFile_effects_sub s faults nowISO proc v file _ hmem with
      h1 | ⟨m, hm⟩
    · rcases Ext.processBody_effects s faults nowISO v file _ h1 with
        ⟨m, hm⟩ | ⟨pp, hm⟩ | ⟨m, hm⟩ | ⟨fm, b, hfm, hlk, h3⟩
      · cases hm
      · cases hm
      · cases hm
      · rcases h3 with h3 | h3 | h3
        · cases h3
        · cases h3
        · injection h3 with e1 e2
    · cases hm
  · intro k hk
    rcases Ext.processFile_file_vault_cases s faults nowISO proc v file with
      ⟨hf, hv⟩ | ⟨hf, hv⟩
    · rw [hf]
    · rw [hf]
      rcases Ext.processBody_file_frontmatter s faults nowISO v file with
        h | ⟨fm, hfm, h⟩
      · rw [h]
      · rcases h with h | h | h
        · rw [h, hfm]
          simp only [fmLookupO]
          exact fmLookup_fmSet_ne fm _ k _ hk
        · rw [h, hfm]
        · rw [h, hfm]
          simp only [fmLookupO]
          exact fmLookup_fmDelete_ne fm _ k hk
  · intro pe hpe hne
    rcases Ext.processFile_file_vault_cases s faults nowISO proc v file with
      ⟨hf, hv⟩ | ⟨hf, hv⟩
    · rw [hv]
      exact hpe
    · rw [hv]
      exact Ext.processBody_vault_mem s faults nowISO v file pe hpe hne

/-- Witness for C10 at a concrete relocating run: settings survive and the
property key `p` (≠ `cd`) keeps its value. -/
theorem taskflow_C10_witness :
    (Ext.processFile sampleExtS noFaults "now" [] sampleVault
      sampleFileTrue).settings = sampleExtS ∧
    fmLookupO (Ext.processFile sampleExtS noFaults "now" [] sampleVault
      sampleFileTrue).file.frontmatter "p" =
      fmLookupO sampleFileTrue.frontmatter "p" :=
  ⟨(taskflow_C10_frame sampleExtS noFaults "now" [] sampleVault
      sampleFileTrue).1,
   (taskflow_C10_frame sampleExtS noFaults "now" [] sampleVault
      sampleFileTrue).2.2.2.2.1 "p" (by decide)⟩

end Taskflow
